import Mathlib

/-!
# JOS kernel monitor (`kern/monitor.c`)

A shallow embedding of the kernel monitor of the JOS teaching kernel: the
stack backtrace command `mon_backtrace`, the command interpreter `runcmd`
and the read-eval loop `monitor`, followed by theorems about them.

Conventions of the embedding.

* Machine words are natural numbers reduced modulo `2 ^ 32` where the C code
  computes on `uint32_t`.
* A `char *` is represented by the characters stored from the pointer on; the
  C string it denotes is the part before the first NUL (`cstr`), the end of the
  list standing for the terminating NUL.
* Console output is the concatenation of the texts written by `cprintf`.
* Loops that C writes as `while` take a fuel argument and return `none` when
  the fuel runs out before the loop exits.
-/

set_option maxRecDepth 100000

namespace JOS

/-! ## Console formatting (`cprintf`) -/

/-- An argument passed through the variadic part of `cprintf`: an `int`, a
32-bit unsigned word (`uint32_t`, pointers) or a `char *`. -/
inductive Arg where
  | int (v : Int)
  | uint (v : Nat)
  | str (s : String)

/-- State of the format scanner: copying literal text, or inside a `%`
directive with its pad character, field width, whether a `.` was seen, and
the precision (`none` when absent or negative). -/
inductive FmtState where
  | lit
  | dir (padc : Char) (width : Nat) (dot : Bool) (precision : Option Nat)

/-- The C string denoted by a character sequence: everything before the first
NUL. -/
def cstr (s : List Char) : List Char :=
  s.takeWhile (fun c => c != '\x00')

/-- Reinterpretation of a 32-bit word as a signed `int`. -/
def toSigned32 (w : Nat) : Int :=
  if w % 2 ^ 32 < 2 ^ 31 then ((w % 2 ^ 32 : Nat) : Int) else ((w % 2 ^ 32 : Nat) : Int) - 2 ^ 32

/-- Signed decimal digits, as `%d` prints them. -/
def printDec (v : Int) : List Char :=
  if v < 0 then '-' :: Nat.toDigits 10 v.natAbs else Nat.toDigits 10 v.natAbs

/-- Lower-case hexadecimal digits of a 32-bit word, as `%x` prints them. -/
def printHex (w : Nat) : List Char :=
  Nat.toDigits 16 (w % 2 ^ 32)

/-- Right-justify `s` in a field of `width` characters filled with `padc`. -/
def padLeft (padc : Char) (width : Nat) (s : List Char) : List Char :=
  List.replicate (width - s.length) padc ++ s

/-- Modelled from the spec: the formatted-output routine behind `cprintf`
(`lib/printfmt.c`) is not part of `kern/monitor.c`; this is the C `printf`
reading of the directives the monitor uses: literal text, `%d`, `%x`, `%s`,
the `0` flag, a decimal field width, and a precision given as `.*` or digits
(for `%s`, the maximal number of characters printed). -/
def vprintfmt : FmtState → List Char → List Arg → List Char
  | _, [], _ => []
  | .lit, c :: fmt, ap =>
    if c = '%' then vprintfmt (.dir ' ' 0 false none) fmt ap
    else c :: vprintfmt .lit fmt ap
  | .dir padc width dot prec, c :: fmt, ap =>
    if c = '0' ∧ width = 0 ∧ dot = false then vprintfmt (.dir '0' width dot prec) fmt ap
    else if c.isDigit then
      if dot then vprintfmt (.dir padc width dot (some (prec.getD 0 * 10 + (c.toNat - 48)))) fmt ap
      else vprintfmt (.dir padc (width * 10 + (c.toNat - 48)) dot prec) fmt ap
    else if c = '.' then vprintfmt (.dir padc width true (some 0)) fmt ap
    else if c = '*' then
      match ap with
      | .int v :: ap' =>
        if dot then vprintfmt (.dir padc width dot (if v < 0 then none else some v.toNat)) fmt ap'
        else vprintfmt (.dir padc v.toNat dot prec) fmt ap'
      | _ => vprintfmt .lit fmt ap
    else if c = 'd' then
      match ap with
      | .int v :: ap' => padLeft padc width (printDec v) ++ vprintfmt .lit fmt ap'
      | .uint w :: ap' => padLeft padc width (printDec (toSigned32 w)) ++ vprintfmt .lit fmt ap'
      | _ => vprintfmt .lit fmt ap
    else if c = 'x' then
      match ap with
      | .int v :: ap' => padLeft padc width (printHex (v % 2 ^ 32).toNat) ++ vprintfmt .lit fmt ap'
      | .uint w :: ap' => padLeft padc width (printHex w) ++ vprintfmt .lit fmt ap'
      | _ => vprintfmt .lit fmt ap
    else if c = 's' then
      match ap with
      | .str s :: ap' =>
        let t := match prec with
          | none => cstr s.data
          | some n => (cstr s.data).take n
        padLeft padc width t ++ vprintfmt .lit fmt ap'
      | _ => vprintfmt .lit fmt ap
    else c :: vprintfmt .lit fmt ap

/-- The text one call `cprintf(fmt, ...)` writes to the console. -/
def cprintf (fmt : String) (ap : List Arg) : String :=
  String.mk (vprintfmt .lit fmt.data ap)

/-! ## Stack backtrace (`mon_backtrace`) -/

/-- The record `struct Eipdebuginfo` (`kern/kdebug.h`) filled by the symbol
resolver. -/
structure Eipdebuginfo where
  eip_file : String
  eip_line : Int
  eip_fn_name : String
  eip_fn_namelen : Int
  eip_fn_addr : Nat
  eip_fn_narg : Int
  deriving DecidableEq

/-- What `mon_backtrace` sees of the machine: the memory as 32-bit words at
byte addresses, the frame-pointer register returned by `read_ebp()`, the
symbol resolver `debuginfo_eip` (its status and what it leaves in the record
it is handed), and the indeterminate initial contents of the locals `args`
and `info`. -/
structure Machine where
  mem : Nat → Nat
  ebp : Nat
  debuginfo_eip : Nat → Eipdebuginfo → Int × Eipdebuginfo
  args : Nat → Nat
  info : Eipdebuginfo

/-- The value of `p[i]` for a `uint32_t *p`. -/
def peek (mem : Nat → Nat) (p i : Nat) : Nat :=
  mem ((p + 4 * i) % 2 ^ 32) % 2 ^ 32

/-- The value of `read_ebp()`. -/
def read_ebp (M : Machine) : Nat :=
  M.ebp % 2 ^ 32

/-- The assignment `a[i] = v`. -/
def store (a : Nat → Nat) (i v : Nat) : Nat → Nat :=
  fun j => if j = i then v else a j

/-- The loop `while (ebp != 0) { ... }` of `mon_backtrace`, carrying the locals
`ebp`, `args`, `info` and the console output written so far. -/
def backtraceLoop (M : Machine) :
    Nat → Nat → (Nat → Nat) → Eipdebuginfo → String → Option String
  | 0, _, _, _, _ => none
  | fuel + 1, ebp, args, info, out =>
    if ebp = 0 then some out
    else
      let eip := peek M.mem ebp 1
      let args := store args 0 (peek M.mem ebp 2)
      let args := store args 1 (peek M.mem ebp 3)
      let args := store args 2 (peek M.mem ebp 4)
      let args := store args 3 (peek M.mem ebp 5)
      let args := store args 4 (peek M.mem ebp 6)
      let args := store args 5 (peek M.mem ebp 7)
      let args := store args 6 (peek M.mem ebp 8)
      let args := store args 7 (peek M.mem ebp 9)
      let args := store args 8 (peek M.mem ebp 10)
      let out := out ++ cprintf "  ebp %08x  eip %08x  args" [.uint ebp, .uint eip]
      let out := (List.range 10).foldl
        (fun out i => out ++ cprintf " %08x" [.uint (args i)]) out
      let out := out ++ cprintf "\n" []
      let info := (M.debuginfo_eip eip info).2
      let out := out ++ cprintf "         %s:%d: %.*s+%d\n"
        [.str info.eip_file, .int info.eip_line,
         .int info.eip_fn_namelen, .str info.eip_fn_name,
         .uint ((eip + 2 ^ 32 - info.eip_fn_addr % 2 ^ 32) % 2 ^ 32)]
      backtraceLoop M fuel (peek M.mem ebp 0) args info out

/-- The command handler `mon_backtrace(argc, argv, tf)`: console output and
return value, or `none` when the walk does not end within `fuel` frames. -/
def mon_backtrace (M : Machine) (fuel : Nat) (_argc : Nat) (_argv : List String)
    (_tf : Nat) : Option (String × Int) :=
  match backtraceLoop M fuel (read_ebp M) M.args M.info (cprintf "Stack backtrace:\n" []) with
  | none => none
  | some out => some (out, 0)

/-! ### The frame chain and the expected text -/

/-- The `i`-th frame pointer of the chain: `fp0`, `mem[fp0]`, `mem[mem[fp0]]`, ... -/
def frameAt (M : Machine) : Nat → Nat
  | 0 => read_ebp M
  | i + 1 => peek M.mem (frameAt M i) 0

/-- The return address stored in the `i`-th frame, `ebp[1]`. -/
def eipAt (M : Machine) (i : Nat) : Nat :=
  peek M.mem (frameAt M i) 1

/-- The contents of the local `info` when the loop reaches the `i`-th frame. -/
def infoBefore (M : Machine) : Nat → Eipdebuginfo
  | 0 => M.info
  | i + 1 => (M.debuginfo_eip (eipAt M i) (infoBefore M i)).2

/-- The debug-info record after the resolver call made for the `i`-th frame. -/
def infoAt (M : Machine) (i : Nat) : Eipdebuginfo :=
  infoBefore M (i + 1)

/-- The chain starting at the initial frame pointer reaches the zero sentinel
after exactly `k` links. -/
def ChainEnds (M : Machine) (k : Nat) : Prop :=
  (∀ i, i < k → frameAt M i ≠ 0) ∧ frameAt M k = 0

instance (M : Machine) (k : Nat) : Decidable (ChainEnds M k) :=
  inferInstanceAs (Decidable ((∀ i, i < k → frameAt M i ≠ 0) ∧ frameAt M k = 0))

/-- A word as `%08x` shows it. -/
def hex8 (w : Nat) : String :=
  String.mk (padLeft '0' 8 (printHex w))

/-- A frame-summary line: the frame pointer, the return address and the ten
words `w 0 .. w 9`. -/
def summaryLine (ebp eip : Nat) (w : Nat → Nat) : String :=
  "  ebp " ++ hex8 ebp ++ "  eip " ++ hex8 eip ++ "  args"
    ++ String.join ((List.range 10).map fun j => " " ++ hex8 (w j)) ++ "\n"

/-- A symbol-info line `<file>:<line>: <name>+<offset>`, indented by nine
blanks: the name cut to `fn_namelen` characters, the offset the 32-bit
difference `eip - fn_addr` shown as a signed decimal. -/
def symbolLine (r : Eipdebuginfo) (eip : Nat) : String :=
  "         " ++ String.mk (cstr r.eip_file.data) ++ ":" ++ String.mk (printDec r.eip_line) ++ ": "
    ++ String.mk (if r.eip_fn_namelen < 0 then cstr r.eip_fn_name.data
        else (cstr r.eip_fn_name.data).take r.eip_fn_namelen.toNat)
    ++ "+" ++ String.mk (printDec (toSigned32 ((eip + 2 ^ 32 - r.eip_fn_addr % 2 ^ 32) % 2 ^ 32)))
    ++ "\n"

/-- The ten argument words `mon_backtrace` holds in `args` while printing the
`i`-th frame: `args[0..8]` loaded from `ebp[2..10]`, `args[9]` as it was on
entry. -/
def argWords (M : Machine) (i : Nat) : Nat → Nat :=
  fun j => if j < 9 then peek M.mem (frameAt M i) (j + 2) else M.args j

/-- The two lines printed for the `i`-th frame. -/
def frameBlock (M : Machine) (i : Nat) : String :=
  summaryLine (frameAt M i) (eipAt M i) (argWords M i) ++ symbolLine (infoAt M i) (eipAt M i)


/-! ## Command interpreter (`runcmd`) and monitor loop (`monitor`) -/

/-- The record `struct Command`: name, description and handler. The handler
`func(argc, argv, tf)` is given, after its fuel, the argument count, the
argument strings and the trap-frame pointer; it yields the text it prints and
its return value, or `none` when it does not return. -/
structure Command where
  name : String
  desc : String
  func : Nat → Nat → List String → Nat → Option (String × Int)

/-- What the interpreter does besides computing its return value: text
written to the console with `cprintf`, the invocation `commands[i].func(argc,
argv, tf)` of a handler, and a call of `readline` with the buffer it
returned (`none` for `NULL`). -/
inductive Event where
  | out (s : String)
  | call (i : Nat) (argc : Nat) (argv : List String) (tf : Nat)
  | readline (buf : Option (List Char))
  deriving DecidableEq

/-- The macro `WHITESPACE`. -/
def WHITESPACE : String := "\t\r\n "

/-- The macro `MAXARGS`. -/
def MAXARGS : Nat := 16

/-- Modelled from the spec: `strchr` (`lib/string.c`) is not part of
`kern/monitor.c`; `strchr(s, c)` is non-NULL when `c` occurs in the C string
`s`, which makes `strchr(WHITESPACE, c)` the test for the whitespace
character set. The monitor only calls it with `c` different from NUL. -/
def strchr (s : String) (c : Char) : Bool :=
  (cstr s.data).contains c

/-- Modelled from the spec: `strcmp` (`lib/string.c`) is not part of
`kern/monitor.c`; the exact string match of the registry lookup as C computes
it: advance while the characters agree and `p` has not ended, then return the
difference of the two characters reached. The end of a list reads as NUL. -/
def strcmp : List Char → List Char → Int
  | [], [] => 0
  | [], q :: _ => 0 - (q.toNat : Int)
  | p :: _, [] => (p.toNat : Int) - 0
  | p :: ps, q :: qs =>
    if p != '\x00' && p == q then strcmp ps qs else (p.toNat : Int) - (q.toNat : Int)

/-- The locals of `runcmd` while it parses: the command buffer split at the
moving pointer `buf` (`done` holds the bytes below it as they now are, `buf`
the bytes from it on, the end of the list being the terminating NUL), the
counter `argc`, and the array `argv` of pointers, each an offset into the
buffer or `none` for NULL. -/
structure ParseState where
  done : List Char
  buf : List Char
  argc : Nat
  argv : Nat → Option Nat

/-- The byte `*buf`. -/
def deref (buf : List Char) : Char :=
  buf.headD '\x00'

/-- The assignment `argv[i] = v` into `char *argv[MAXARGS]`; undefined
(`none`) when the index lies outside the array. -/
def storeArgv (argv : Nat → Option Nat) (i : Nat) (v : Option Nat) :
    Option (Nat → Option Nat) :=
  if i < MAXARGS then some (fun j => if j = i then v else argv j) else none

/-- The loop `while (*buf && strchr(WHITESPACE, *buf)) *buf++ = 0;`. -/
def gobble : List Char → List Char → List Char × List Char
  | done, [] => (done, [])
  | done, c :: buf =>
    if c != '\x00' && strchr WHITESPACE c then gobble (done ++ ['\x00']) buf
    else (done, c :: buf)

/-- The loop `while (*buf && !strchr(WHITESPACE, *buf)) buf++;`. -/
def scanArg : List Char → List Char → List Char × List Char
  | done, [] => (done, [])
  | done, c :: buf =>
    if c != '\x00' && !strchr WHITESPACE c then scanArg (done ++ [c]) buf
    else (done, c :: buf)

/-- How the parsing loop of `runcmd` is left: through `break`, or through the
`return 0` that follows the too-many-arguments message. -/
inductive ParseResult where
  | parsed (st : ParseState)
  | tooMany (st : ParseState)

/-- The loop `while (1) { ... }` of `runcmd`. -/
def parseLoop : Nat → ParseState → Option ParseResult
  | 0, _ => none
  | fuel + 1, st =>
    -- gobble whitespace
    let (done, buf) := gobble st.done st.buf
    if deref buf = '\x00' then
      some (.parsed { st with done := done, buf := buf })
    -- save and scan past next arg
    else if st.argc = MAXARGS - 1 then
      some (.tooMany { st with done := done, buf := buf })
    else
      match storeArgv st.argv st.argc (some done.length) with
      | none => none
      | some argv =>
        let (done, buf) := scanArg done buf
        parseLoop fuel { done := done, buf := buf, argc := st.argc + 1, argv := argv }

/-- The C string at offset `p` of the buffer `mem`. -/
def stringAt (mem : List Char) (p : Nat) : String :=
  String.mk (cstr (mem.drop p))

/-- The strings `argv[0] .. argv[argc-1]` as a handler reads them from the
buffer. -/
def argList (st : ParseState) : List String :=
  (List.range st.argc).map fun i =>
    match st.argv i with
    | some p => stringAt (st.done ++ st.buf) p
    | none => ""

/-- The loop `for (i = 0; i < ARRAY_SIZE(commands); i++)` of `runcmd` over the
entries from index `i` on, and the message that follows it. -/
def lookup (fuel : Nat) (argc : Nat) (argv : List String) (tf : Nat) :
    List Command → Nat → Option (List Event × Int)
  | [], _ => some ([.out (cprintf "Unknown command '%s'\n" [.str (argv.headD "")])], 0)
  | c :: cs, i =>
    if strcmp (argv.headD "").data c.name.data = 0 then
      match c.func fuel argc argv tf with
      | none => none
      | some (text, r) => some ([.call i argc argv tf, .out text], r)
    else lookup fuel argc argv tf cs (i + 1)

/-- The parsing part of `runcmd`: `argc = 0; argv[argc] = 0;`, the loop, and
`argv[argc] = 0;` once the loop is left through `break`. `argv` is the
indeterminate initial contents of the local array. -/
def parseArgs (fuel : Nat) (argv : Nat → Option Nat) (buf : List Char) : Option ParseResult :=
  match storeArgv argv 0 none with
  | none => none
  | some argv =>
    match parseLoop fuel { done := [], buf := buf, argc := 0, argv := argv } with
    | none => none
    | some (.tooMany st) => some (.tooMany st)
    | some (.parsed st) =>
      match storeArgv st.argv st.argc none with
      | none => none
      | some argv => some (.parsed { st with argv := argv })

/-- The function `runcmd(buf, tf)` over the command table `commands`: what
happened and the return value. -/
def runcmd (commands : List Command) (fuel : Nat) (argv : Nat → Option Nat)
    (buf : List Char) (tf : Nat) : Option (List Event × Int) :=
  -- Parse the command buffer into whitespace-separated arguments
  match parseArgs fuel argv buf with
  | none => none
  | some (.tooMany _) =>
    some ([.out (cprintf "Too many arguments (max %d)\n" [.int MAXARGS])], 0)
  | some (.parsed st) =>
    -- Lookup and invoke the command
    if st.argc = 0 then some ([], 0)
    else lookup fuel st.argc (argList st) tf commands 0

/-- The loop `while (1) { buf = readline("K> "); ... }` of `monitor`: `n`
counts the calls of `readline` made so far and `console n` is what the next
call returns; `steps` bounds the number of iterations. -/
def monitorLoop (commands : List Command) (fuel : Nat) (argv : Nat → Option Nat)
    (console : Nat → Option (List Char)) (tf : Nat) :
    Nat → Nat → List Event → Option (List Event)
  | 0, _, _ => none
  | steps + 1, n, evs =>
    match console n with
    | none => monitorLoop commands fuel argv console tf steps (n + 1) (evs ++ [.readline none])
    | some buf =>
      match runcmd commands fuel argv buf tf with
      | none => none
      | some (es, r) =>
        if r < 0 then some (evs ++ [.readline (some buf)] ++ es)
        else monitorLoop commands fuel argv console tf steps (n + 1)
          (evs ++ [.readline (some buf)] ++ es)

/-- The function `monitor(tf)`: the events up to its return, or `none` when it
has not returned within `steps` iterations of its loop. -/
def monitor (commands : List Command) (fuel : Nat) (argv : Nat → Option Nat)
    (console : Nat → Option (List Char)) (tf : Nat) (steps : Nat) : Option (List Event) :=
  monitorLoop commands fuel argv console tf steps 0
    [.out (cprintf "Welcome to the JOS kernel monitor!\n" []),
     .out (cprintf "Type 'help' for a list of commands.\n" [])]

/-! ### The tokens of a line -/

/-- The whitespace characters: space, tab, carriage return, newline. -/
def isWhite (c : Char) : Bool :=
  c == ' ' || c == '\t' || c == '\r' || c == '\n'

/-- The tokens of a NUL-terminated line: the maximal non-empty runs of
non-whitespace characters, from left to right. -/
def tokens (line : List Char) : List (List Char) :=
  ((cstr line).splitOnP isWhite).filter fun t => !t.isEmpty

/-- A character of the inside of an argument: neither NUL nor whitespace. -/
def isArgChar (c : Char) : Bool :=
  c != '\x00' && !isWhite c

/-- The command buffer after parsing: up to the terminating NUL every
whitespace byte is replaced by NUL; nothing else changes. -/
def blankOut : List Char → List Char
  | [] => []
  | c :: buf =>
    if c = '\x00' then c :: buf
    else (if isWhite c then '\x00' else c) :: blankOut buf

/-- What one iteration of the loop of `monitor` adds to the events when it is
the call number `i` of `readline`. -/
def lineEvents (commands : List Command) (fuel : Nat) (argv : Nat → Option Nat)
    (console : Nat → Option (List Char)) (tf : Nat) (i : Nat) : List Event :=
  match console i with
  | none => [.readline none]
  | some buf =>
    match runcmd commands fuel argv buf tf with
    | none => [.readline (some buf)]
    | some (es, _) => .readline (some buf) :: es

/-- Whether the iteration for the call number `i` of `readline` goes on to
the next one: the line is NULL, or its dispatch returns a value that is not
negative. -/
def continues (commands : List Command) (fuel : Nat) (argv : Nat → Option Nat)
    (console : Nat → Option (List Char)) (tf : Nat) (i : Nat) : Bool :=
  match console i with
  | none => true
  | some buf =>
    match runcmd commands fuel argv buf tf with
    | none => false
    | some (_, r) => decide (0 ≤ r)

/-- The number of calls of `readline` among the events. -/
def readlineCount (evs : List Event) : Nat :=
  evs.countP fun e =>
    match e with
    | .readline _ => true
    | _ => false

/-! ## The default command table (`commands`) -/

/-- The kernel symbols `mon_kerninfo` prints, supplied by the linker
(`_start`, `entry`, `etext`, `edata`, `end`), and the constant `KERNBASE` of
`inc/memlayout.h`. -/
structure KernelImage where
  _start : Nat
  entry : Nat
  etext : Nat
  edata : Nat
  end_ : Nat
  KERNBASE : Nat

/-- Modelled from the spec: the macro `ROUNDUP` (`inc/types.h`) is not part
of `kern/monitor.c`; `ROUNDUP(a, n)` is `a`, taken as a 32-bit word, rounded up
to the nearest multiple of `n`, as the computed footprint size needs it. -/
def ROUNDUP (a n : Nat) : Nat :=
  (a % 2 ^ 32 + n - 1) % 2 ^ 32 - (a % 2 ^ 32 + n - 1) % 2 ^ 32 % n

/-- The names and descriptions of the entries of the array `commands`, which
`mon_help` reads. -/
def commandNames : List (String × String) :=
  [ ("help", "Display this list of commands"),
    ("kerninfo", "Display information about the kernel"),
    ("backtrace", "Display backtrace of current kernel stack"),
    ("mydisplay", "Shows a display created") ]

/-- The command handler `mon_help(argc, argv, tf)`. -/
def mon_help (_fuel _argc : Nat) (_argv : List String) (_tf : Nat) : Option (String × Int) :=
  let out := commandNames.foldl
    (fun out c => out ++ cprintf "%s - %s\n" [.str c.1, .str c.2]) ""
  some (out, 0)

/-- The command handler `mon_kerninfo(argc, argv, tf)`. -/
def mon_kerninfo (K : KernelImage) (_fuel _argc : Nat) (_argv : List String) (_tf : Nat) :
    Option (String × Int) :=
  let out := cprintf "Special kernel symbols:\n" []
  let out := out ++ cprintf "  _start                  %08x (phys)\n" [.uint K._start]
  let out := out ++ cprintf "  entry  %08x (virt)  %08x (phys)\n"
    [.uint K.entry, .uint ((K.entry + 2 ^ 32 - K.KERNBASE % 2 ^ 32) % 2 ^ 32)]
  let out := out ++ cprintf "  etext  %08x (virt)  %08x (phys)\n"
    [.uint K.etext, .uint ((K.etext + 2 ^ 32 - K.KERNBASE % 2 ^ 32) % 2 ^ 32)]
  let out := out ++ cprintf "  edata  %08x (virt)  %08x (phys)\n"
    [.uint K.edata, .uint ((K.edata + 2 ^ 32 - K.KERNBASE % 2 ^ 32) % 2 ^ 32)]
  let out := out ++ cprintf "  end    %08x (virt)  %08x (phys)\n"
    [.uint K.end_, .uint ((K.end_ + 2 ^ 32 - K.KERNBASE % 2 ^ 32) % 2 ^ 32)]
  let out := out ++ cprintf "Kernel executable memory footprint: %dKB\n"
    [.int (Int.tdiv (toSigned32 (ROUNDUP ((K.end_ + 2 ^ 32 - K.entry % 2 ^ 32) % 2 ^ 32) 1024))
      1024)]
  some (out, 0)

/-- The command handler `mydisplay()`; it takes no notice of the arguments
it is called with. -/
def mydisplay (_fuel _argc : Nat) (_argv : List String) (_tf : Nat) : Option (String × Int) :=
  let out := cprintf "\x1b[0;30m                 \n" []
  let out := out ++ cprintf "\x1b[0;30m    @@@    _  ,-.\n" []
  let out := out ++ cprintf "\x1b[0;31m   @@@@@  (,-/)  )\n" []
  let out := out ++ cprintf "\x1b[0;31m    @@@  \x7b        \x7d\n" []
  let out := out ++ cprintf "\x1b[0;35m     | o-' 9       ;\n" []
  let out := out ++ cprintf "\x1b[0;35m     |  \\         /     BOOM\n" []
  let out := out ++ cprintf "\x1b[0;34m     |   `-.     (        TEDDY\n" []
  let out := out ++ cprintf "\x1b[0;33m     |  ,'/  ,--.;          BOOM\n" []
  let out := out ++ cprintf "\x1b[0;33m ,-. _,','  /   ||\n" []
  let out := out ++ cprintf "\x1b[0;32m |  (  / _,'    /|\n" []
  let out := out ++ cprintf "\x1b[0;39m >-. `( (    _,' |\n" []
  let out := out ++ cprintf "\x1b[0;37m |  \\_.--`~~' `.  )\n" []
  let out := out ++ cprintf "\x1b[0;37m |             ;-'\n" []
  let out := out ++ cprintf "\x1b[0;36m `.__,.      ,'\n" []
  let out := out ++ cprintf "\x1b[0;36m      `----'\n\x1b[0;37m" []
  some (out, 0)

/-- The array `commands` on a machine `M` with the kernel image `K`. -/
def commands (M : Machine) (K : KernelImage) : List Command :=
  [ { name := "help", desc := "Display this list of commands", func := mon_help },
    { name := "kerninfo", desc := "Display information about the kernel",
      func := mon_kerninfo K },
    { name := "backtrace", desc := "Display backtrace of current kernel stack",
      func := mon_backtrace M },
    { name := "mydisplay", desc := "Shows a display created", func := mydisplay } ]

/-! ### Runs in progress -/

/-- The console output the loop of `mon_backtrace` has produced once it has
gone through its body `n` times or has left, whichever comes first. -/
def backtraceWritten (M : Machine) :
    Nat → Nat → (Nat → Nat) → Eipdebuginfo → String → String
  | 0, _, _, _, out => out
  | n + 1, ebp, args, info, out =>
    if ebp = 0 then out
    else
      let eip := peek M.mem ebp 1
      let args := store args 0 (peek M.mem ebp 2)
      let args := store args 1 (peek M.mem ebp 3)
      let args := store args 2 (peek M.mem ebp 4)
      let args := store args 3 (peek M.mem ebp 5)
      let args := store args 4 (peek M.mem ebp 6)
      let args := store args 5 (peek M.mem ebp 7)
      let args := store args 6 (peek M.mem ebp 8)
      let args := store args 7 (peek M.mem ebp 9)
      let args := store args 8 (peek M.mem ebp 10)
      let out := out ++ cprintf "  ebp %08x  eip %08x  args" [.uint ebp, .uint eip]
      let out := (List.range 10).foldl
        (fun out i => out ++ cprintf " %08x" [.uint (args i)]) out
      let out := out ++ cprintf "\n" []
      let info := (M.debuginfo_eip eip info).2
      let out := out ++ cprintf "         %s:%d: %.*s+%d\n"
        [.str info.eip_file, .int info.eip_line,
         .int info.eip_fn_namelen, .str info.eip_fn_name,
         .uint ((eip + 2 ^ 32 - info.eip_fn_addr % 2 ^ 32) % 2 ^ 32)]
      backtraceWritten M n (peek M.mem ebp 0) args info out

/-- The locals of `runcmd` when its parsing loop is left, either way. -/
def ParseResult.state : ParseResult → ParseState
  | .parsed st => st
  | .tooMany st => st

/-- The command buffer with the whitespace among its first `n` bytes
replaced by NUL, up to the terminating NUL at most. -/
def blankUpTo : Nat → List Char → List Char
  | 0, buf => buf
  | _ + 1, [] => []
  | n + 1, c :: buf =>
    if c = '\x00' then c :: buf
    else (if isWhite c then '\x00' else c) :: blankUpTo n buf

/-! ## Examples

### Machines -/

/-- A resolver that knows one function: address `0x100020` lies in `foo`
(`a.c`, line 5, starting at `0x100000`); every other address is reported as
not found, the record holding the placeholders `<unknown>`. -/
def exampleResolver (eip : Nat) (_ : Eipdebuginfo) : Int × Eipdebuginfo :=
  if eip = 0x100020 then (0, ⟨"a.c", 5, "foo:F(0,1)", 3, 0x100000, 0⟩)
  else (-1, ⟨"<unknown>", 0, "<unknown>", 9, eip, 0⟩)

/-- The chain `0x8000 → 0x8040 → 0` with return addresses `0x100020` and
`0x100010`. -/
def exampleMachine : Machine where
  mem := fun a =>
    if a = 0x8000 then 0x8040 else if a = 0x8004 then 0x100020
    else if a = 0x8044 then 0x100010 else 0
  ebp := 0x8000
  debuginfo_eip := exampleResolver
  args := fun _ => 0
  info := ⟨"", 0, "", 0, 0, 0⟩

/-- A single frame at `0x1000` whose words `ebp[2] .. ebp[11]` are `1 .. 10`,
entered with `0xcccccccc` in every slot of the local `args`. -/
def tenWordsMachine : Machine where
  mem := fun a =>
    if a = 0x1000 then 0 else if a = 0x1004 then 0x100020
    else if 0x1008 ≤ a ∧ a < 0x1030 then (a - 0x1008) / 4 + 1 else 0
  ebp := 0x1000
  debuginfo_eip := exampleResolver
  args := fun _ => 0xcccccccc
  info := ⟨"", 0, "", 0, 0, 0⟩

/-- A single frame whose return address the resolver reports as not found
(status `-1`) while the record it leaves describes `foo` in `a.c`. -/
def notFoundMachine : Machine where
  mem := fun a => if a = 0x1004 then 0x100020 else 0
  ebp := 0x1000
  debuginfo_eip := fun _ _ => (-1, ⟨"a.c", 5, "foo", 3, 0x100000, 0⟩)
  args := fun _ => 0
  info := ⟨"", 0, "", 0, 0, 0⟩

/-- The machine `notFoundMachine` with a resolver that leaves the same record
and reports success (status `0`). -/
def foundMachine : Machine :=
  { notFoundMachine with debuginfo_eip := fun _ _ => (0, ⟨"a.c", 5, "foo", 3, 0x100000, 0⟩) }

/-- The machine `M` with the status of every resolver answer replaced by
`status`, the records left untouched. -/
def withStatus (M : Machine) (status : Nat → Eipdebuginfo → Int) : Machine :=
  { M with debuginfo_eip := fun eip r => (status eip r, (M.debuginfo_eip eip r).2) }

/-! ### Command tables and consoles -/

/-- A handler that prints nothing and returns its argument count. -/
def countArgs (_fuel argc : Nat) (_argv : List String) (_tf : Nat) : Option (String × Int) :=
  some ("", argc)

/-- A handler that asks the monitor to exit by returning `-1`. -/
def quit (_fuel _argc : Nat) (_argv : List String) (_tf : Nat) : Option (String × Int) :=
  some ("bye\n", -1)

/-- A table with two entries named `count`, the second of which can never be
reached, and an entry `quit`. -/
def exampleCommands : List Command :=
  [ { name := "count", desc := "Count the arguments", func := countArgs },
    { name := "count", desc := "Never reached", func := quit },
    { name := "quit", desc := "Leave the monitor", func := quit } ]

/-- A console that delivers `count a`, then NULL, then `quit now`, and
`count b` ever after. -/
def exampleConsole (n : Nat) : Option (List Char) :=
  if n = 0 then some "count a".data
  else if n = 1 then none
  else if n = 2 then some "quit now".data
  else some "count b".data

/-- A handler that returns the negative value `-2`. -/
def fail2 (_fuel _argc : Nat) (_argv : List String) (_tf : Nat) : Option (String × Int) :=
  some ("", -2)

/-- A handler that returns the positive value `7`. -/
def seven (_fuel _argc : Nat) (_argv : List String) (_tf : Nat) : Option (String × Int) :=
  some ("", 7)

/-- A table with a handler that returns `7` and one that returns `-2`. -/
def signCommands : List Command :=
  [ { name := "seven", desc := "Return 7", func := seven },
    { name := "fail", desc := "Return -2", func := fail2 } ]

/-- A console that delivers `seven`, then `fail`, and `seven` ever after. -/
def signConsole (n : Nat) : Option (List Char) :=
  if n = 1 then some "fail".data else some "seven".data

/-- A console that delivers NULL, then `quit`, and `count` ever after. -/
def nullConsole (n : Nat) : Option (List Char) :=
  if n = 0 then none else if n = 1 then some "quit".data else some "count".data

/-- A console that delivers the four default commands in turn, for ever. -/
def defaultConsole (n : Nat) : Option (List Char) :=
  if n % 4 = 0 then some "help".data
  else if n % 4 = 1 then some "kerninfo".data
  else if n % 4 = 2 then some "backtrace".data
  else some "mydisplay".data

/-- A kernel image linked at `0xf0100000`. -/
def exampleKernel : KernelImage where
  _start := 0x0010000c
  entry := 0xf010000c
  etext := 0xf0101a75
  edata := 0xf0112300
  end_ := 0xf0112960
  KERNBASE := 0xf0000000

/-- A frame at `0x1000` whose saved-frame-pointer slot holds its own address. -/
def selfLoopMachine : Machine where
  mem := fun a => if a = 0x1000 then 0x1000 else if a = 0x1004 then 0x100020 else 0
  ebp := 0x1000
  debuginfo_eip := exampleResolver
  args := fun _ => 0
  info := ⟨"", 0, "", 0, 0, 0⟩

/-- A machine entered with a zero frame pointer. -/
def noFrameMachine : Machine :=
  { exampleMachine with ebp := 0 }

/-! ## Theorems

### The stack backtrace -/

theorem cprintf_header : cprintf "Stack backtrace:\n" [] = "Stack backtrace:\n" := by
  decide

theorem cprintf_newline : cprintf "\n" [] = "\n" := by
  decide

theorem cprintf_word (w : Nat) : cprintf " %08x" [.uint w] = " " ++ hex8 w := by
  apply String.ext
  simp [cprintf, vprintfmt, hex8]

theorem cprintf_ebp_eip (a b : Nat) :
    cprintf "  ebp %08x  eip %08x  args" [.uint a, .uint b]
      = "  ebp " ++ hex8 a ++ "  eip " ++ hex8 b ++ "  args" := by
  apply String.ext
  simp [cprintf, vprintfmt, hex8]

theorem cprintf_symbol (r : Eipdebuginfo) (w : Nat) :
    cprintf "         %s:%d: %.*s+%d\n"
        [.str r.eip_file, .int r.eip_line, .int r.eip_fn_namelen, .str r.eip_fn_name, .uint w]
      = "         " ++ String.mk (cstr r.eip_file.data) ++ ":" ++ String.mk (printDec r.eip_line)
        ++ ": "
        ++ String.mk (if r.eip_fn_namelen < 0 then cstr r.eip_fn_name.data
            else (cstr r.eip_fn_name.data).take r.eip_fn_namelen.toNat)
        ++ "+" ++ String.mk (printDec (toSigned32 w)) ++ "\n" := by
  apply String.ext
  by_cases h : r.eip_fn_namelen < 0 <;> simp [cprintf, vprintfmt, padLeft, h]


theorem foldl_append_eq_join (f : Nat → String) (l : List Nat) (out : String) :
    l.foldl (fun out i => out ++ f i) out = out ++ String.join (l.map f) := by
  induction l generalizing out with
  | nil => simp [String.join_eq]
  | cons a l ih =>
    rw [List.foldl_cons, ih]
    apply String.ext
    simp [String.join_eq]

theorem join_cons (s : String) (l : List String) :
    String.join (s :: l) = s ++ String.join l := by
  apply String.ext
  simp [String.join_eq]

theorem join_append (l₁ l₂ : List String) :
    String.join (l₁ ++ l₂) = String.join l₁ ++ String.join l₂ := by
  apply String.ext
  simp [String.join_eq]

theorem join_nil : String.join [] = "" := by
  rfl

theorem peek_lt (mem : Nat → Nat) (p i : Nat) : peek mem p i < 2 ^ 32 :=
  Nat.mod_lt _ (by norm_num)

theorem frameAt_lt (M : Machine) (i : Nat) : frameAt M i < 2 ^ 32 := by
  cases i with
  | zero => exact Nat.mod_lt _ (by norm_num)
  | succ i => exact peek_lt _ _ _

/-- The local `args` after the nine loads `args[0] = ebp[2]; ...; args[8] = ebp[10]`. -/
def loadArgs (mem : Nat → Nat) (ebp : Nat) (args : Nat → Nat) : Nat → Nat :=
  fun j => if j < 9 then peek mem ebp (j + 2) else args j

theorem nine_stores (mem : Nat → Nat) (ebp : Nat) (args : Nat → Nat) :
    store (store (store (store (store (store (store (store (store args
      0 (peek mem ebp 2)) 1 (peek mem ebp 3)) 2 (peek mem ebp 4)) 3 (peek mem ebp 5))
      4 (peek mem ebp 6)) 5 (peek mem ebp 7)) 6 (peek mem ebp 8)) 7 (peek mem ebp 9))
      8 (peek mem ebp 10) = loadArgs mem ebp args := by
  funext j
  simp only [store, loadArgs]
  by_cases h : j < 9
  · interval_cases j <;> simp
  · rw [if_neg h]
    repeat rw [if_neg (by omega)]

/-- One pass through the body of the loop appends a frame-summary line and a
symbol-info line and moves on to the saved frame pointer. -/
theorem backtraceLoop_step (M : Machine) (fuel ebp : Nat) (args : Nat → Nat)
    (info : Eipdebuginfo) (out : String) (h0 : ebp ≠ 0) :
    backtraceLoop M (fuel + 1) ebp args info out
      = backtraceLoop M fuel (peek M.mem ebp 0) (loadArgs M.mem ebp args)
          (M.debuginfo_eip (peek M.mem ebp 1) info).2
          (out ++ (summaryLine ebp (peek M.mem ebp 1) (loadArgs M.mem ebp args)
            ++ symbolLine (M.debuginfo_eip (peek M.mem ebp 1) info).2 (peek M.mem ebp 1))) := by
  rw [backtraceLoop, if_neg h0]
  simp only [nine_stores, foldl_append_eq_join, cprintf_ebp_eip, cprintf_newline,
    cprintf_symbol, cprintf_word]
  congr 1
  simp only [summaryLine, symbolLine, String.append_assoc]

theorem backtraceLoop_chain (M : Machine) (n : Nat) :
    ∀ (i fuel : Nat) (args : Nat → Nat) (out : String),
      (∀ j, j < n → frameAt M (i + j) ≠ 0) → frameAt M (i + n) = 0 → n < fuel →
      (∀ j, 9 ≤ j → args j = M.args j) →
      backtraceLoop M fuel (frameAt M i) args (infoBefore M i) out
        = some (out ++ String.join ((List.range' i n).map (frameBlock M))) := by
  induction n with
  | zero =>
    intro i fuel args out _ hz hf _
    obtain ⟨fuel, rfl⟩ : ∃ m, fuel = m + 1 := ⟨fuel - 1, by omega⟩
    have hz0 : frameAt M i = 0 := by simpa using hz
    simp [backtraceLoop, hz0, join_nil]
  | succ n ih =>
    intro i fuel args out hnz hz hf hargs
    obtain ⟨fuel, rfl⟩ : ∃ m, fuel = m + 1 := ⟨fuel - 1, by omega⟩
    have h0 : frameAt M i ≠ 0 := by simpa using hnz 0 (by omega)
    have hnz1 : ∀ j, j < n → frameAt M (i + 1 + j) ≠ 0 := by
      intro j hj
      have := hnz (j + 1) (by omega)
      rwa [show i + (j + 1) = i + 1 + j by omega] at this
    have hz1 : frameAt M (i + 1 + n) = 0 := by
      rwa [show i + (n + 1) = i + 1 + n by omega] at hz
    have hargs1 : ∀ j, 9 ≤ j → loadArgs M.mem (frameAt M i) args j = M.args j := by
      intro j hj
      simp only [loadArgs]
      rw [if_neg (by omega)]
      exact hargs j hj
    have hblock : summaryLine (frameAt M i) (peek M.mem (frameAt M i) 1)
          (loadArgs M.mem (frameAt M i) args)
        ++ symbolLine (M.debuginfo_eip (peek M.mem (frameAt M i) 1) (infoBefore M i)).2
          (peek M.mem (frameAt M i) 1) = frameBlock M i := by
      have hw : loadArgs M.mem (frameAt M i) args = argWords M i := by
        funext j
        simp only [loadArgs, argWords]
        by_cases h : j < 9
        · rw [if_pos h, if_pos h]
        · rw [if_neg h, if_neg h]
          exact hargs j (by omega)
      rw [hw]
      rfl
    have hstep := ih (i + 1) fuel (loadArgs M.mem (frameAt M i) args)
      (out ++ frameBlock M i) hnz1 hz1 (by omega) hargs1
    rw [backtraceLoop_step M fuel _ args _ out h0, hblock]
    rw [List.range'_succ, List.map_cons, join_cons, ← String.append_assoc]
    exact hstep

theorem mon_backtrace_output (M : Machine) (k fuel argc tf : Nat) (argv : List String)
    (hk : ChainEnds M k) (hf : k < fuel) :
    mon_backtrace M fuel argc argv tf
      = some ("Stack backtrace:\n" ++ String.join ((List.range k).map (frameBlock M)), 0) := by
  have h := backtraceLoop_chain M k 0 fuel M.args (cprintf "Stack backtrace:\n" [])
    (by simpa using hk.1) (by simpa using hk.2) hf (fun _ _ => rfl)
  simp only [frameAt, infoBefore] at h
  rw [mon_backtrace, h, cprintf_header, List.range_eq_range']


/-- The output of a walk over a chain of `k` frames, split around the symbol
line of its `i`-th frame. -/
theorem mon_backtrace_split (M : Machine) (k fuel argc tf : Nat) (argv : List String)
    (hk : ChainEnds M k) (hf : k < fuel) (i : Nat) (hi : i < k) :
    mon_backtrace M fuel argc argv tf
      = some ("Stack backtrace:\n" ++ String.join ((List.range i).map (frameBlock M))
          ++ summaryLine (frameAt M i) (eipAt M i) (argWords M i)
          ++ symbolLine (infoAt M i) (eipAt M i)
          ++ String.join ((List.range' (i + 1) (k - (i + 1))).map (frameBlock M)), 0) := by
  rw [mon_backtrace_output M k fuel argc tf argv hk hf]
  have hr : List.range k = List.range i ++ i :: List.range' (i + 1) (k - (i + 1)) := by
    have h1 := List.range'_append 0 i (k - i) 1
    simp only [Nat.zero_add, Nat.one_mul] at h1
    rw [List.range_eq_range', List.range_eq_range', ← List.range'_succ,
      show k - (i + 1) + 1 = k - i by omega, h1]
    congr 1
    omega
  rw [hr, List.map_append, List.map_cons, join_append, join_cons]
  simp only [frameBlock, String.append_assoc]

/-- C1: when the frame-pointer chain starting at the initial frame pointer
reaches zero after `k` links, `mon_backtrace` prints the heading and then, for
the frames `0 .. k-1` of the chain in this order, a frame-summary line
followed by a symbol-info line; the summary line of the `i`-th frame shows the
`i`-th frame pointer of the chain (the first being the initial frame pointer)
and the word stored one word above it as return address; the return value is
`0`. This holds for every memory and every resolver, whatever it answers. -/
theorem mon_backtrace_emits_chain (M : Machine) (k fuel argc tf : Nat) (argv : List String)
    (hk : ChainEnds M k) (hf : k < fuel) :
    mon_backtrace M fuel argc argv tf
        = some ("Stack backtrace:\n" ++ String.join ((List.range k).map fun i =>
            summaryLine (frameAt M i) (peek M.mem (frameAt M i) 1) (argWords M i)
              ++ symbolLine (infoAt M i) (peek M.mem (frameAt M i) 1)), 0)
      ∧ ((List.range k).map fun i =>
            summaryLine (frameAt M i) (peek M.mem (frameAt M i) 1) (argWords M i)
              ++ symbolLine (infoAt M i) (peek M.mem (frameAt M i) 1)).length = k
      ∧ frameAt M 0 = read_ebp M
      ∧ ∀ i, frameAt M (i + 1) = peek M.mem (frameAt M i) 0 :=
  ⟨mon_backtrace_output M k fuel argc tf argv hk hf, by simp, rfl, fun _ => rfl⟩

theorem mon_backtrace_emits_chain_witness :
    ChainEnds exampleMachine 2 ∧ 2 < 3 ∧
      mon_backtrace exampleMachine 3 0 [] 0
        = some ("Stack backtrace:\n"
            ++ "  ebp 00008000  eip 00100020  args 00000000 00000000 00000000 00000000 00000000"
            ++ " 00000000 00000000 00000000 00000000 00000000\n"
            ++ "         a.c:5: foo+32\n"
            ++ "  ebp 00008040  eip 00100010  args 00000000 00000000 00000000 00000000 00000000"
            ++ " 00000000 00000000 00000000 00000000 00000000\n"
            ++ "         <unknown>:0: <unknown>+0\n", 0) :=
  ⟨by decide, by decide,
    ((mon_backtrace_emits_chain exampleMachine 2 3 0 0 [] (by decide) (by decide)).1).trans
      (by decide)⟩

/-- C2, evaluated on a frame whose words `ebp[2] .. ebp[11]` are `1 .. 10`: the
first nine words printed are `ebp[2] .. ebp[10]`, but the tenth is the old
content `0xcccccccc` of `args[9]`, which is never assigned, and not the word
`ebp[11] = 0x0000000a`. -/
theorem mon_backtrace_tenth_word_stale :
    peek tenWordsMachine.mem (read_ebp tenWordsMachine) 11 = 0xa
      ∧ mon_backtrace tenWordsMachine 2 0 [] 0
        = some ("Stack backtrace:\n"
            ++ "  ebp 00001000  eip 00100020  args 00000001 00000002 00000003 00000004 00000005"
            ++ " 00000006 00000007 00000008 00000009 cccccccc\n"
            ++ "         a.c:5: foo+32\n", 0) := by
  decide

/-- C3: for a frame of the chain whose return address `eip` the resolver
answers with the record `{file, line, name, len, addr}`, the line printed
after the frame-summary line is `<file>:<line>: <name>+<offset>` (after nine
blanks of indentation, ended by a newline), the name cut to its first `len`
characters and the offset being the 32-bit difference `eip - addr` in
decimal. -/
theorem mon_backtrace_symbol_line (M : Machine) (k fuel argc tf : Nat) (argv : List String)
    (hk : ChainEnds M k) (hf : k < fuel) (i : Nat) (hi : i < k)
    (status : Int) (file name : String) (line len narg : Int) (addr : Nat)
    (hr : M.debuginfo_eip (eipAt M i) (infoBefore M i)
      = (status, ⟨file, line, name, len, addr, narg⟩)) :
    mon_backtrace M fuel argc argv tf
      = some ("Stack backtrace:\n" ++ String.join ((List.range i).map (frameBlock M))
          ++ summaryLine (frameAt M i) (eipAt M i) (argWords M i)
          ++ ("         " ++ String.mk (cstr file.data) ++ ":" ++ String.mk (printDec line) ++ ": "
            ++ String.mk (if len < 0 then cstr name.data else (cstr name.data).take len.toNat)
            ++ "+"
            ++ String.mk (printDec (toSigned32 ((eipAt M i + 2 ^ 32 - addr % 2 ^ 32) % 2 ^ 32)))
            ++ "\n")
          ++ String.join ((List.range' (i + 1) (k - (i + 1))).map (frameBlock M)), 0) := by
  rw [mon_backtrace_split M k fuel argc tf argv hk hf i hi]
  have hinfo : infoAt M i = ⟨file, line, name, len, addr, narg⟩ := by
    simp only [infoAt, infoBefore, hr]
  rw [hinfo]
  rfl

theorem mon_backtrace_symbol_line_witness :
    ChainEnds exampleMachine 2 ∧ eipAt exampleMachine 0 = 0x100020 ∧
      exampleMachine.debuginfo_eip (eipAt exampleMachine 0) (infoBefore exampleMachine 0)
        = (0, ⟨"a.c", 5, "foo:F(0,1)", 3, 0x100000, 0⟩) ∧
      mon_backtrace exampleMachine 3 0 [] 0
        = some ("Stack backtrace:\n"
            ++ "  ebp 00008000  eip 00100020  args 00000000 00000000 00000000 00000000 00000000"
            ++ " 00000000 00000000 00000000 00000000 00000000\n"
            ++ "         a.c:5: foo+32\n"
            ++ "  ebp 00008040  eip 00100010  args 00000000 00000000 00000000 00000000 00000000"
            ++ " 00000000 00000000 00000000 00000000 00000000\n"
            ++ "         <unknown>:0: <unknown>+0\n", 0) :=
  ⟨by decide, by decide, by decide,
    (mon_backtrace_symbol_line exampleMachine 2 3 0 0 [] (by decide) (by decide) 0 (by decide)
      0 "a.c" "foo:F(0,1)" 5 3 0 0x100000 (by decide)).trans (by decide)⟩

/-- C4, refuted: a resolver that reports not found (status `-1`) and leaves a
record describing `foo` in `a.c` makes `mon_backtrace` print `a.c:5: foo+32`,
with no marker of unknown symbol information, exactly what it prints when the
same record comes with the status `0` of a successful lookup. -/
theorem mon_backtrace_not_found_unmarked :
    (notFoundMachine.debuginfo_eip (eipAt notFoundMachine 0) notFoundMachine.info).1 = -1
      ∧ (foundMachine.debuginfo_eip (eipAt foundMachine 0) foundMachine.info).1 = 0
      ∧ mon_backtrace notFoundMachine 2 0 [] 0
        = some ("Stack backtrace:\n"
            ++ "  ebp 00001000  eip 00100020  args 00000000 00000000 00000000 00000000 00000000"
            ++ " 00000000 00000000 00000000 00000000 00000000\n"
            ++ "         a.c:5: foo+32\n", 0)
      ∧ mon_backtrace notFoundMachine 2 0 [] 0 = mon_backtrace foundMachine 2 0 [] 0 := by
  decide

theorem backtraceLoop_withStatus (M : Machine) (status : Nat → Eipdebuginfo → Int) (fuel : Nat) :
    ∀ (ebp : Nat) (args : Nat → Nat) (info : Eipdebuginfo) (out : String),
      backtraceLoop (withStatus M status) fuel ebp args info out
        = backtraceLoop M fuel ebp args info out := by
  induction fuel with
  | zero => intros; rfl
  | succ fuel ih =>
    intro ebp args info out
    rw [backtraceLoop, backtraceLoop]
    by_cases h0 : ebp = 0
    · rw [if_pos h0, if_pos h0]
    · rw [if_neg h0, if_neg h0]
      exact ih _ _ _ _

/-- C4 as amended: `mon_backtrace` does not look at the status the resolver
returns. For a frame whose return address is reported as not found it still
prints a line after the frame-summary line, and this line is formatted from
the record the resolver left, `<file>:<line>: <name>+<offset>`, as for a
successful lookup; replacing the statuses of all answers changes nothing of
the output or the return value. -/
theorem mon_backtrace_not_found_line (M : Machine) (fuel argc tf : Nat) (argv : List String) :
    (∀ status : Nat → Eipdebuginfo → Int,
        mon_backtrace (withStatus M status) fuel argc argv tf = mon_backtrace M fuel argc argv tf)
      ∧ ∀ k i, ChainEnds M k → k < fuel → i < k →
          (M.debuginfo_eip (eipAt M i) (infoBefore M i)).1 < 0 →
          mon_backtrace M fuel argc argv tf
            = some ("Stack backtrace:\n" ++ String.join ((List.range i).map (frameBlock M))
                ++ summaryLine (frameAt M i) (eipAt M i) (argWords M i)
                ++ symbolLine (M.debuginfo_eip (eipAt M i) (infoBefore M i)).2 (eipAt M i)
                ++ String.join ((List.range' (i + 1) (k - (i + 1))).map (frameBlock M)), 0) := by
  refine ⟨fun status => ?_, fun k i hk hf hi _ => ?_⟩
  · simp only [mon_backtrace]
    rw [show read_ebp (withStatus M status) = read_ebp M from rfl,
      show (withStatus M status).args = M.args from rfl,
      show (withStatus M status).info = M.info from rfl, backtraceLoop_withStatus]
  · exact mon_backtrace_split M k fuel argc tf argv hk hf i hi

theorem mon_backtrace_not_found_line_witness :
    ChainEnds notFoundMachine 1 ∧
      (notFoundMachine.debuginfo_eip (eipAt notFoundMachine 0) (infoBefore notFoundMachine 0)).1 < 0
      ∧ mon_backtrace notFoundMachine 2 0 [] 0
        = some ("Stack backtrace:\n"
            ++ "  ebp 00001000  eip 00100020  args 00000000 00000000 00000000 00000000 00000000"
            ++ " 00000000 00000000 00000000 00000000 00000000\n"
            ++ "         a.c:5: foo+32\n", 0) :=
  ⟨by decide, by decide,
    ((mon_backtrace_not_found_line notFoundMachine 2 0 0 []).2 1 0 (by decide) (by decide)
      (by decide) (by decide)).trans (by decide)⟩


/-! ### Lemmas on the tokens of a line -/

theorem strchr_WHITESPACE (c : Char) : strchr WHITESPACE c = isWhite c := by
  have h : cstr WHITESPACE.data = ['\t', '\r', '\n', ' '] := by decide
  simp only [strchr, h, isWhite, List.contains_cons, List.contains_nil, Bool.or_false]
  cases c == ' ' <;> cases c == '\t' <;> cases c == '\r' <;> cases c == '\n' <;> rfl

theorem isWhite_ne_nul (c : Char) (h : isWhite c = true) : c ≠ '\x00' := by
  rintro rfl
  exact absurd h (by decide)

theorem gobble_eq (done buf : List Char) :
    gobble done buf
      = (done ++ List.replicate (buf.takeWhile isWhite).length '\x00', buf.dropWhile isWhite) := by
  induction buf generalizing done with
  | nil => simp [gobble]
  | cons c buf ih =>
    rw [gobble, strchr_WHITESPACE]
    by_cases hw : isWhite c = true
    · have hc : c ≠ '\x00' := isWhite_ne_nul c hw
      simp [hw, hc, ih, List.takeWhile_cons, List.dropWhile_cons, List.replicate_succ]
    · simp [hw, List.takeWhile_cons, List.dropWhile_cons]

theorem scanArg_eq (done buf : List Char) :
    scanArg done buf = (done ++ buf.takeWhile isArgChar, buf.dropWhile isArgChar) := by
  induction buf generalizing done with
  | nil => simp [scanArg]
  | cons c buf ih =>
    rw [scanArg, strchr_WHITESPACE]
    by_cases hw : isArgChar c = true
    · have hw2 := hw
      simp only [isArgChar] at hw2
      simp [hw, hw2, ih, List.takeWhile_cons, List.dropWhile_cons]
    · have hw2 := hw
      simp only [isArgChar] at hw2
      simp [hw, hw2, List.takeWhile_cons, List.dropWhile_cons]

theorem cstr_nil : cstr [] = [] := rfl

theorem cstr_cons_nul (l : List Char) : cstr ('\x00' :: l) = [] := by
  simp [cstr]

theorem cstr_cons (c : Char) (l : List Char) (h : c ≠ '\x00') : cstr (c :: l) = c :: cstr l := by
  simp [cstr, h]

theorem cstr_of_deref (l : List Char) (h : deref l = '\x00') : cstr l = [] := by
  cases l with
  | nil => rfl
  | cons c l =>
    simp only [deref, List.headD_cons] at h
    rw [h, cstr_cons_nul]

theorem tokens_of_deref (l : List Char) (h : deref l = '\x00') : tokens l = [] := by
  simp [tokens, cstr_of_deref l h, List.splitOnP_nil]

theorem tokens_white (w : Char) (l : List Char) (h : isWhite w = true) :
    tokens (w :: l) = tokens l := by
  simp [tokens, cstr_cons w l (isWhite_ne_nul w h), List.splitOnP_cons, h]

theorem tokens_dropWhile (l : List Char) : tokens (l.dropWhile isWhite) = tokens l := by
  induction l with
  | nil => rfl
  | cons c l ih =>
    by_cases hw : isWhite c = true
    · rw [List.dropWhile_cons_of_pos hw, ih, tokens_white c l hw]
    · rw [List.dropWhile_cons_of_neg hw]

theorem isArgChar_iff (c : Char) : isArgChar c = true ↔ c ≠ '\x00' ∧ isWhite c = false := by
  simp [isArgChar]

theorem cstr_takeWhile_append (l : List Char) :
    cstr l = l.takeWhile isArgChar ++ cstr (l.dropWhile isArgChar) := by
  induction l with
  | nil => rfl
  | cons c l ih =>
    by_cases hc : isArgChar c = true
    · rw [List.takeWhile_cons_of_pos hc, List.dropWhile_cons_of_pos hc,
        cstr_cons c l ((isArgChar_iff c).1 hc).1, ih, List.cons_append]
    · rw [List.takeWhile_cons_of_neg hc, List.dropWhile_cons_of_neg hc, List.nil_append]

/-- What follows an argument is the end of the line or a whitespace byte. -/
theorem deref_dropWhile_isArgChar (l : List Char) :
    deref (l.dropWhile isArgChar) = '\x00' ∨ isWhite (deref (l.dropWhile isArgChar)) = true := by
  induction l with
  | nil => left; rfl
  | cons c l ih =>
    by_cases hc : isArgChar c = true
    · rw [List.dropWhile_cons_of_pos hc]; exact ih
    · rw [List.dropWhile_cons_of_neg hc]
      simp only [deref, List.headD_cons]
      by_cases h0 : c = '\x00'
      · left; exact h0
      · right
        by_contra hw
        exact hc ((isArgChar_iff c).2 ⟨h0, by simpa using hw⟩)

theorem tokens_arg (l : List Char) (h0 : deref l ≠ '\x00') (hw : isWhite (deref l) = false) :
    tokens l = l.takeWhile isArgChar :: tokens (l.dropWhile isArgChar) := by
  obtain ⟨c, l, rfl⟩ : ∃ c l', l = c :: l' := by
    cases l with
    | nil => exact absurd rfl h0
    | cons c l => exact ⟨c, l, rfl⟩
  simp only [deref, List.headD_cons] at h0 hw
  have hc : isArgChar c = true := (isArgChar_iff c).2 ⟨h0, hw⟩
  have hne : (c :: l).takeWhile isArgChar ≠ [] := by
    rw [List.takeWhile_cons_of_pos hc]; exact List.cons_ne_nil _ _
  have hnw : ∀ x ∈ (c :: l).takeWhile isArgChar, ¬ (isWhite x = true) := by
    intro x hx
    have := List.mem_takeWhile_imp hx
    simp [((isArgChar_iff x).1 this).2]
  generalize (c :: l) = m at hne hnw ⊢
  have hsplit := cstr_takeWhile_append m
  rcases deref_dropWhile_isArgChar m with hd | hd
  · have h1 : cstr (m.dropWhile isArgChar) = [] := cstr_of_deref _ hd
    rw [tokens_of_deref _ hd]
    rw [h1, List.append_nil] at hsplit
    simp only [tokens]
    rw [hsplit, List.splitOnP_eq_single isWhite _ hnw]
    simp [hne]
  · obtain ⟨w, r, hr⟩ : ∃ w r, m.dropWhile isArgChar = w :: r := by
      cases hm : m.dropWhile isArgChar with
      | nil => rw [hm] at hd; exact absurd hd (by decide)
      | cons w r => exact ⟨w, r, rfl⟩
    rw [hr] at hd hsplit ⊢
    simp only [deref, List.headD_cons] at hd
    rw [tokens_white w r hd]
    rw [cstr_cons w r (isWhite_ne_nul w hd)] at hsplit
    simp only [tokens]
    rw [hsplit, List.splitOnP_first isWhite _ hnw w hd]
    simp [hne]

/-! ### Lemmas on the parsing loop -/

theorem blankOut_of_deref (l : List Char) (h : deref l = '\x00') : blankOut l = l := by
  cases l with
  | nil => rfl
  | cons c l =>
    simp only [deref, List.headD_cons] at h
    rw [blankOut, if_pos h]

theorem blankOut_white (l : List Char) :
    blankOut l = List.replicate (l.takeWhile isWhite).length '\x00'
      ++ blankOut (l.dropWhile isWhite) := by
  induction l with
  | nil => rfl
  | cons c l ih =>
    by_cases hw : isWhite c = true
    · rw [List.takeWhile_cons_of_pos hw, List.dropWhile_cons_of_pos hw, blankOut,
        if_neg (isWhite_ne_nul c hw), if_pos hw, ih]
      rfl
    · rw [List.takeWhile_cons_of_neg hw, List.dropWhile_cons_of_neg hw]
      rfl

theorem blankOut_arg (l : List Char) :
    blankOut l = l.takeWhile isArgChar ++ blankOut (l.dropWhile isArgChar) := by
  induction l with
  | nil => rfl
  | cons c l ih =>
    by_cases hc : isArgChar c = true
    · have h := (isArgChar_iff c).1 hc
      rw [List.takeWhile_cons_of_pos hc, List.dropWhile_cons_of_pos hc, blankOut,
        if_neg h.1, ih]
      simp [h.2]
    · rw [List.takeWhile_cons_of_neg hc, List.dropWhile_cons_of_neg hc]
      rfl

theorem deref_blankOut (l : List Char) (h : deref l = '\x00' ∨ isWhite (deref l) = true) :
    deref (blankOut l) = '\x00' := by
  cases l with
  | nil => rfl
  | cons c l =>
    simp only [deref, List.headD_cons] at h
    rw [blankOut]
    by_cases h0 : c = '\x00'
    · rw [if_pos h0]; simpa [deref] using h0
    · rw [if_neg h0]
      rcases h with h | h
      · exact absurd h h0
      · simp [deref, h]

theorem cstr_append_of_deref (t r : List Char) (ht : ∀ x ∈ t, x ≠ '\x00')
    (hr : deref r = '\x00') : cstr (t ++ r) = t := by
  induction t with
  | nil => simpa using cstr_of_deref r hr
  | cons c t ih =>
    rw [List.cons_append, cstr_cons c _ (ht c (List.mem_cons_self c t)),
      ih (fun x hx => ht x (List.mem_cons_of_mem c hx))]

theorem length_dropWhile_le (p : Char → Bool) (l : List Char) :
    (l.dropWhile p).length ≤ l.length := by
  induction l with
  | nil => simp
  | cons c l ih =>
    by_cases hc : p c = true
    · rw [List.dropWhile_cons_of_pos hc]; simp only [List.length_cons]; omega
    · rw [List.dropWhile_cons_of_neg hc]

theorem length_dropWhile_isArgChar_lt (l : List Char) (h0 : deref l ≠ '\x00')
    (hw : isWhite (deref l) = false) : (l.dropWhile isArgChar).length < l.length := by
  cases l with
  | nil => exact absurd rfl h0
  | cons c l =>
    simp only [deref, List.headD_cons] at h0 hw
    rw [List.dropWhile_cons_of_pos ((isArgChar_iff c).2 ⟨h0, hw⟩)]
    have := length_dropWhile_le isArgChar l
    simp only [List.length_cons]
    omega

/-- After the whitespace is gobbled the byte under the pointer is no
whitespace. -/
theorem isWhite_deref_dropWhile (l : List Char) :
    isWhite (deref (l.dropWhile isWhite)) = false := by
  induction l with
  | nil => decide
  | cons c l ih =>
    by_cases hw : isWhite c = true
    · rw [List.dropWhile_cons_of_pos hw]; exact ih
    · rw [List.dropWhile_cons_of_neg hw]
      simpa [deref] using hw

/-- One pass through the body of the parsing loop. -/
theorem parseLoop_succ (fuel : Nat) (st : ParseState) :
    parseLoop (fuel + 1) st
      = if deref (st.buf.dropWhile isWhite) = '\x00' then
          some (.parsed { st with
            done := st.done ++ List.replicate (st.buf.takeWhile isWhite).length '\x00',
            buf := st.buf.dropWhile isWhite })
        else if st.argc = MAXARGS - 1 then
          some (.tooMany { st with
            done := st.done ++ List.replicate (st.buf.takeWhile isWhite).length '\x00',
            buf := st.buf.dropWhile isWhite })
        else
          match storeArgv st.argv st.argc
              (some (st.done ++ List.replicate (st.buf.takeWhile isWhite).length '\x00').length) with
          | none => none
          | some argv =>
            parseLoop fuel
              { done := st.done ++ List.replicate (st.buf.takeWhile isWhite).length '\x00'
                  ++ (st.buf.dropWhile isWhite).takeWhile isArgChar,
                buf := (st.buf.dropWhile isWhite).dropWhile isArgChar,
                argc := st.argc + 1, argv := argv } := by
  rw [parseLoop]
  simp only [gobble_eq, scanArg_eq]

/-- A line with at most `MAXARGS - 1 - argc` tokens left is parsed to the end:
the loop is left through `break` with one more argument per token, each
`argv` entry pointing at its token in the blanked-out buffer. -/
theorem parseLoop_parsed (fuel : Nat) :
    ∀ (done buf : List Char) (argc : Nat) (argv : Nat → Option Nat),
      buf.length < fuel → argc + (tokens buf).length ≤ MAXARGS - 1 →
      ∃ st, parseLoop fuel ⟨done, buf, argc, argv⟩ = some (.parsed st)
        ∧ st.argc = argc + (tokens buf).length
        ∧ st.done ++ st.buf = done ++ blankOut buf
        ∧ (∀ i, i < argc → st.argv i = argv i)
        ∧ ∀ j t, (tokens buf)[j]? = some t →
            ∃ p, st.argv (argc + j) = some p ∧ done.length ≤ p
              ∧ cstr ((st.done ++ st.buf).drop p) = t := by
  induction fuel with
  | zero => intro _ buf _ _ h; exact absurd h (Nat.not_lt_zero _)
  | succ fuel ih =>
    intro done buf argc argv hlen hcount
    rw [parseLoop_succ]
    simp only []
    by_cases hend : deref (buf.dropWhile isWhite) = '\x00'
    · rw [if_pos hend]
      have htok : tokens buf = [] := by
        rw [← tokens_dropWhile]; exact tokens_of_deref _ hend
      refine ⟨_, rfl, by simp [htok], ?_, fun i _ => rfl, ?_⟩
      · simp only [List.append_assoc]
        rw [blankOut_white buf, blankOut_of_deref _ hend]
      · intro j t hj
        rw [htok] at hj
        simp at hj
    · rw [if_neg hend]
      have hw := isWhite_deref_dropWhile buf
      have htok : tokens buf = (buf.dropWhile isWhite).takeWhile isArgChar
          :: tokens ((buf.dropWhile isWhite).dropWhile isArgChar) := by
        rw [← tokens_dropWhile buf]; exact tokens_arg _ hend hw
      rw [htok, List.length_cons] at hcount
      have hargc : argc < MAXARGS - 1 := by omega
      rw [if_neg (by omega)]
      have hstore : ∀ v, storeArgv argv argc v
          = some (fun j => if j = argc then v else argv j) := by
        intro v
        rw [storeArgv, if_pos (by simp only [MAXARGS] at hargc ⊢; omega)]
      rw [hstore]
      simp only []
      have hlt := length_dropWhile_isArgChar_lt _ hend hw
      have hle := length_dropWhile_le isWhite buf
      obtain ⟨st, hst, hc, hmem, hkeep, hargs⟩ := ih
        (done ++ List.replicate (buf.takeWhile isWhite).length '\x00'
          ++ (buf.dropWhile isWhite).takeWhile isArgChar)
        ((buf.dropWhile isWhite).dropWhile isArgChar) (argc + 1)
        (fun j => if j = argc
          then some (done ++ List.replicate (buf.takeWhile isWhite).length '\x00').length
          else argv j)
        (by omega) (by omega)
      have hmem2 : st.done ++ st.buf = done ++ blankOut buf := by
        rw [hmem, blankOut_white buf, blankOut_arg (buf.dropWhile isWhite)]
        simp only [List.append_assoc]
      refine ⟨st, hst, ?_, hmem2, ?_, ?_⟩
      · rw [hc, htok, List.length_cons]; omega
      · intro i hi
        rw [hkeep i (by omega), if_neg (by omega)]
      · intro j t hj
        rw [htok] at hj
        cases j with
        | zero =>
          simp only [List.getElem?_cons_zero, Option.some.injEq] at hj
          refine ⟨(done ++ List.replicate (buf.takeWhile isWhite).length '\x00').length,
            ?_, ?_, ?_⟩
          · rw [Nat.add_zero, hkeep argc (by omega), if_pos rfl]
          · simp
          · rw [hmem, ← hj]
            rw [List.append_assoc, List.drop_left]
            apply cstr_append_of_deref
            · intro x hx
              exact ((isArgChar_iff x).1 (List.mem_takeWhile_imp hx)).1
            · exact deref_blankOut _ (deref_dropWhile_isArgChar _)
        | succ j =>
          simp only [List.getElem?_cons_succ] at hj
          obtain ⟨p, hp, hpl, hpt⟩ := hargs j t hj
          refine ⟨p, ?_, ?_, hpt⟩
          · rw [show argc + (j + 1) = argc + 1 + j by omega]; exact hp
          · simp only [List.length_append] at hpl
            omega

theorem parseLoop_tooMany (fuel : Nat) :
    ∀ (done buf : List Char) (argc : Nat) (argv : Nat → Option Nat),
      buf.length < fuel → argc ≤ MAXARGS - 1 → MAXARGS ≤ argc + (tokens buf).length →
      ∃ st, parseLoop fuel ⟨done, buf, argc, argv⟩ = some (.tooMany st) := by
  induction fuel with
  | zero => intro _ buf _ _ h; exact absurd h (Nat.not_lt_zero _)
  | succ fuel ih =>
    intro done buf argc argv hlen hargc hcount
    rw [parseLoop_succ]
    simp only []
    have hle := length_dropWhile_le isWhite buf
    by_cases hend : deref (buf.dropWhile isWhite) = '\x00'
    · have htok : tokens buf = [] := by
        rw [← tokens_dropWhile]; exact tokens_of_deref _ hend
      rw [htok] at hcount
      simp only [MAXARGS, List.length_nil] at hcount hargc
      omega
    · rw [if_neg hend]
      by_cases h15 : argc = MAXARGS - 1
      · rw [if_pos h15]; exact ⟨_, rfl⟩
      · rw [if_neg h15]
        have hw := isWhite_deref_dropWhile buf
        have htok : tokens buf = (buf.dropWhile isWhite).takeWhile isArgChar
            :: tokens ((buf.dropWhile isWhite).dropWhile isArgChar) := by
          rw [← tokens_dropWhile buf]; exact tokens_arg _ hend hw
        rw [htok, List.length_cons] at hcount
        have hlt := length_dropWhile_isArgChar_lt _ hend hw
        rw [storeArgv, if_pos (by simp only [MAXARGS] at hargc h15 ⊢; omega)]
        exact ih _ _ _ _ (by omega) (by omega) (by omega)

/-- Every token is a non-empty run of bytes that are neither NUL nor
whitespace. -/
theorem tokens_isArgChar (n : Nat) :
    ∀ l : List Char, l.length < n → ∀ t ∈ tokens l, t ≠ [] ∧ ∀ c ∈ t, isArgChar c = true := by
  induction n with
  | zero => intro l h; exact absurd h (Nat.not_lt_zero _)
  | succ n ih =>
    intro l hlen t ht
    rw [← tokens_dropWhile] at ht
    have hle := length_dropWhile_le isWhite l
    by_cases hend : deref (l.dropWhile isWhite) = '\x00'
    · rw [tokens_of_deref _ hend] at ht
      simp at ht
    · have hw := isWhite_deref_dropWhile l
      rw [tokens_arg _ hend hw] at ht
      have hlt := length_dropWhile_isArgChar_lt _ hend hw
      rcases List.mem_cons.1 ht with rfl | ht
      · refine ⟨?_, fun c hc => List.mem_takeWhile_imp hc⟩
        cases hl : l.dropWhile isWhite with
        | nil => rw [hl] at hend; exact absurd rfl hend
        | cons c r =>
          rw [hl] at hend hw
          simp only [deref, List.headD_cons] at hend hw
          rw [List.takeWhile_cons_of_pos ((isArgChar_iff c).2 ⟨hend, hw⟩)]
          exact List.cons_ne_nil _ _
      · exact ih _ (by omega) t ht

theorem cstr_eq_self (t : List Char) (h : ∀ c ∈ t, c ≠ '\x00') : cstr t = t := by
  have := cstr_append_of_deref t [] h rfl
  rwa [List.append_nil] at this

theorem cstr_token (l t : List Char) (ht : t ∈ tokens l) : cstr t = t :=
  cstr_eq_self t fun c hc =>
    ((isArgChar_iff c).1 ((tokens_isArgChar (l.length + 1) l (Nat.lt_succ_self _) t ht).2 c hc)).1

theorem tokens_eq_nil_iff (l : List Char) :
    tokens l = [] ↔ ∀ c ∈ cstr l, isWhite c = true := by
  induction l with
  | nil => simp [tokens_of_deref [] rfl, cstr_nil]
  | cons c l ih =>
    by_cases h0 : c = '\x00'
    · subst h0
      simp [tokens_of_deref ('\x00' :: l) rfl, cstr_cons_nul]
    · rw [cstr_cons c l h0]
      by_cases hw : isWhite c = true
      · rw [tokens_white c l hw, ih]
        simp [hw]
      · have hw2 : isWhite c = false := by simpa using hw
        rw [tokens_arg (c :: l) (by simpa [deref] using h0) (by simpa [deref] using hw2)]
        simp [hw2]

/-! ### Lemmas on the command lookup -/

theorem toNat_eq_zero_iff (c : Char) : (c.toNat : Int) = 0 ↔ c = '\x00' := by
  constructor
  · intro h
    have h2 : c.toNat = 0 := by exact_mod_cast h
    have := Char.ofNat_toNat c
    rw [h2] at this
    exact this.symm
  · rintro rfl; rfl

theorem toNat_sub_eq_zero_iff (p q : Char) : (p.toNat : Int) - (q.toNat : Int) = 0 ↔ p = q := by
  constructor
  · intro h
    have h2 : p.toNat = q.toNat := by omega
    have hp := Char.ofNat_toNat p
    rw [h2, Char.ofNat_toNat] at hp
    exact hp.symm
  · rintro rfl; omega

/-- The call `strcmp(p, q)` returns zero exactly when `p` and `q` denote the
same C string. -/
theorem strcmp_eq_zero_iff (p q : List Char) : strcmp p q = 0 ↔ cstr p = cstr q := by
  induction p generalizing q with
  | nil =>
    cases q with
    | nil => simp [strcmp]
    | cons b q =>
      rw [strcmp, cstr_nil, Int.zero_sub, Int.neg_eq_zero, toNat_eq_zero_iff]
      by_cases hb : b = '\x00'
      · subst hb; simp [cstr_cons_nul]
      · simp [hb, cstr_cons b q hb]
  | cons a p ih =>
    cases q with
    | nil =>
      rw [strcmp, cstr_nil, Int.sub_zero, toNat_eq_zero_iff]
      by_cases ha : a = '\x00'
      · subst ha; simp [cstr_cons_nul]
      · simp [ha, cstr_cons a p ha]
    | cons b q =>
      rw [strcmp]
      by_cases ha : a = '\x00'
      · subst ha
        simp only [bne_self_eq_false, Bool.false_and, Bool.false_eq_true, if_false,
          cstr_cons_nul]
        rw [toNat_sub_eq_zero_iff]
        by_cases hb : b = '\x00'
        · subst hb; simp [cstr_cons_nul]
        · simp [cstr_cons b q hb, Ne.symm hb]
      · by_cases hab : a = b
        · subst hab
          simp [ha, cstr_cons a _ ha, ih]
        · have hne : ¬ ((a != '\x00' && a == b) = true) := by simp [hab]
          rw [if_neg hne, toNat_sub_eq_zero_iff]
          by_cases hb : b = '\x00'
          · subst hb; simp [cstr_cons_nul, cstr_cons a p ha, ha]
          · simp [cstr_cons a p ha, cstr_cons b q hb, hab]

theorem lookup_unknown (fuel argc tf : Nat) (argv : List String) (cmds : List Command)
    (h : ∀ c ∈ cmds, cstr c.name.data ≠ cstr (argv.headD "").data) (i : Nat) :
    lookup fuel argc argv tf cmds i
      = some ([.out (cprintf "Unknown command '%s'\n" [.str (argv.headD "")])], 0) := by
  induction cmds generalizing i with
  | nil => rfl
  | cons c cs ih =>
    rw [lookup, if_neg]
    · exact ih (fun c' hc' => h c' (List.mem_cons_of_mem c hc')) (i + 1)
    · rw [strcmp_eq_zero_iff]
      exact fun he => h c (List.mem_cons_self c cs) he.symm

theorem lookup_first (fuel argc tf : Nat) (argv : List String) (pre post : List Command)
    (c : Command) (hpre : ∀ d ∈ pre, cstr d.name.data ≠ cstr (argv.headD "").data)
    (hc : cstr c.name.data = cstr (argv.headD "").data) (i : Nat) :
    lookup fuel argc argv tf (pre ++ c :: post) i
      = (c.func fuel argc argv tf).map fun res =>
          ([.call (i + pre.length) argc argv tf, .out res.1], res.2) := by
  induction pre generalizing i with
  | nil =>
    rw [List.nil_append, lookup, if_pos ((strcmp_eq_zero_iff _ _).2 hc.symm)]
    cases c.func fuel argc argv tf <;> rfl
  | cons d pre ih =>
    rw [List.cons_append, lookup, if_neg]
    · rw [ih (fun d' hd' => hpre d' (List.mem_cons_of_mem d hd')) (i + 1), List.length_cons]
      rw [show i + 1 + pre.length = i + (pre.length + 1) by omega]
    · rw [strcmp_eq_zero_iff]
      exact fun he => hpre d (List.mem_cons_self d pre) he.symm

/-! ### Lemmas on `runcmd` -/

/-- A line within the limit is parsed into its tokens. -/
theorem parseArgs_parsed (fuel : Nat) (argv : Nat → Option Nat) (buf : List Char)
    (hfuel : buf.length < fuel) (hcount : (tokens buf).length ≤ MAXARGS - 1) :
    ∃ st, parseArgs fuel argv buf = some (.parsed st)
      ∧ st.argc = (tokens buf).length
      ∧ st.done ++ st.buf = blankOut buf
      ∧ st.argv st.argc = none
      ∧ argList st = (tokens buf).map String.mk := by
  have h0 : storeArgv argv 0 none = some (fun j => if j = 0 then none else argv j) := by
    rw [storeArgv, if_pos (by decide)]
  obtain ⟨st, hst, hc, hmem, -, hargs⟩ := parseLoop_parsed fuel [] buf 0
    (fun j => if j = 0 then none else argv j) hfuel (by omega)
  rw [Nat.zero_add] at hc
  have h1 : storeArgv st.argv st.argc none
      = some (fun j => if j = st.argc then none else st.argv j) := by
    rw [storeArgv, if_pos (by rw [hc]; simp only [MAXARGS] at hcount ⊢; omega)]
  refine ⟨{ st with argv := fun j => if j = st.argc then none else st.argv j }, ?_, hc,
    by simpa using hmem, by simp, ?_⟩
  · rw [parseArgs, h0]
    simp only [hst, h1]
  · apply List.ext_getElem?
    intro j
    simp only [argList, hc]
    by_cases hj : j < (tokens buf).length
    · rw [List.getElem?_map, List.getElem?_map, List.getElem?_range hj,
        List.getElem?_eq_getElem hj]
      obtain ⟨p, hp, -, hpt⟩ := hargs j _ (List.getElem?_eq_getElem hj)
      rw [Nat.zero_add] at hp
      simp only [Option.map_some', Option.some.injEq]
      rw [if_neg (by omega), hp]
      simp only [stringAt, hpt]
    · rw [List.getElem?_eq_none (by simpa using hj),
        List.getElem?_eq_none (by simpa using hj)]

/-- A line with `MAXARGS` tokens or more is given up. -/
theorem parseArgs_tooMany (fuel : Nat) (argv : Nat → Option Nat) (buf : List Char)
    (hfuel : buf.length < fuel) (hcount : MAXARGS ≤ (tokens buf).length) :
    ∃ st, parseArgs fuel argv buf = some (.tooMany st) := by
  have h0 : storeArgv argv 0 none = some (fun j => if j = 0 then none else argv j) := by
    rw [storeArgv, if_pos (by decide)]
  obtain ⟨st, hst⟩ := parseLoop_tooMany fuel [] buf 0
    (fun j => if j = 0 then none else argv j) hfuel (by decide) (by omega)
  exact ⟨st, by rw [parseArgs, h0]; simp only [hst]⟩

/-- On a line within the limit `runcmd` does nothing when there is no token
and otherwise looks the first token up in the command table. -/
theorem runcmd_eq_lookup (cmds : List Command) (fuel : Nat) (argv : Nat → Option Nat)
    (buf : List Char) (tf : Nat) (hfuel : buf.length < fuel)
    (hcount : (tokens buf).length ≤ MAXARGS - 1) :
    runcmd cmds fuel argv buf tf
      = if (tokens buf).length = 0 then some ([], 0)
        else lookup fuel (tokens buf).length ((tokens buf).map String.mk) tf cmds 0 := by
  obtain ⟨st, hst, hc, -, -, hargs⟩ := parseArgs_parsed fuel argv buf hfuel hcount
  rw [runcmd, hst]
  simp only [hc, hargs]

theorem cprintf_tooMany :
    cprintf "Too many arguments (max %d)\n" [.int MAXARGS] = "Too many arguments (max 16)\n" := by
  decide

theorem cprintf_unknown (t : String) (h : cstr t.data = t.data) :
    cprintf "Unknown command '%s'\n" [.str t] = "Unknown command '" ++ t ++ "'\n" := by
  apply String.ext
  simp [cprintf, vprintfmt, padLeft, h]

/-! ### Lemmas on the monitor loop -/

theorem readlineCount_append (a b : List Event) :
    readlineCount (a ++ b) = readlineCount a + readlineCount b := by
  simp [readlineCount, List.countP_append]

theorem lookup_no_readline (fuel argc tf : Nat) (argv : List String) (cmds : List Command) :
    ∀ (i : Nat) (es : List Event) (r : Int),
      lookup fuel argc argv tf cmds i = some (es, r) → readlineCount es = 0 := by
  induction cmds with
  | nil =>
    intro i es r h
    simp only [lookup, Option.some.injEq, Prod.mk.injEq] at h
    rw [← h.1]; rfl
  | cons c cs ih =>
    intro i es r h
    rw [lookup] at h
    split at h
    · cases hf : c.func fuel argc argv tf with
      | none => rw [hf] at h; simp at h
      | some res =>
        rw [hf] at h
        simp only [Option.some.injEq, Prod.mk.injEq] at h
        rw [← h.1]; rfl
    · exact ih _ _ _ h

/-- The events of a dispatch hold no call of `readline`. -/
theorem runcmd_no_readline (cmds : List Command) (fuel : Nat) (argv : Nat → Option Nat)
    (buf : List Char) (tf : Nat) (es : List Event) (r : Int)
    (h : runcmd cmds fuel argv buf tf = some (es, r)) : readlineCount es = 0 := by
  rw [runcmd] at h
  split at h
  · simp at h
  · simp only [Option.some.injEq, Prod.mk.injEq] at h
    rw [← h.1]; rfl
  · split at h
    · simp only [Option.some.injEq, Prod.mk.injEq] at h
      rw [← h.1]; rfl
    · exact lookup_no_readline _ _ _ _ _ _ _ _ h

theorem readlineCount_lineEvents (cmds : List Command) (fuel : Nat) (argv : Nat → Option Nat)
    (console : Nat → Option (List Char)) (tf i : Nat) :
    readlineCount (lineEvents cmds fuel argv console tf i) = 1 := by
  rw [lineEvents]
  cases console i with
  | none => rfl
  | some buf =>
    simp only []
    cases hr : runcmd cmds fuel argv buf tf with
    | none => rfl
    | some res =>
      obtain ⟨es, r⟩ := res
      have := runcmd_no_readline cmds fuel argv buf tf es r hr
      simp only [readlineCount, List.countP_cons] at this ⊢
      simp [this]

theorem readlineCount_flatMap (cmds : List Command) (fuel : Nat) (argv : Nat → Option Nat)
    (console : Nat → Option (List Char)) (tf : Nat) (l : List Nat) :
    readlineCount (l.flatMap (lineEvents cmds fuel argv console tf)) = l.length := by
  induction l with
  | nil => rfl
  | cons a l ih =>
    rw [List.flatMap_cons, readlineCount_append, readlineCount_lineEvents, ih, List.length_cons]
    omega

/-- The loop of `monitor` started at call number `k` of `readline`, when the
next `n` iterations go on and the one after them dispatches a line whose
return value is negative. -/
theorem monitorLoop_exit (cmds : List Command) (fuel : Nat) (argv : Nat → Option Nat)
    (console : Nat → Option (List Char)) (tf : Nat) (buf : List Char) (es : List Event)
    (r : Int) (n : Nat) :
    ∀ (k steps : Nat) (evs : List Event),
      (∀ i, i < n → continues cmds fuel argv console tf (k + i) = true) →
      console (k + n) = some buf → runcmd cmds fuel argv buf tf = some (es, r) → r < 0 →
      n < steps →
      monitorLoop cmds fuel argv console tf steps k evs
        = some (evs ++ (List.range' k n).flatMap (lineEvents cmds fuel argv console tf)
            ++ .readline (some buf) :: es) := by
  induction n with
  | zero =>
    intro k steps evs _ hbuf hrun hr hsteps
    obtain ⟨steps, rfl⟩ : ∃ m, steps = m + 1 := ⟨steps - 1, by omega⟩
    rw [Nat.add_zero] at hbuf
    rw [monitorLoop]
    simp only [hbuf, hrun, if_pos hr]
    simp
  | succ n ih =>
    intro k steps evs hcont hbuf hrun hr hsteps
    obtain ⟨steps, rfl⟩ : ∃ m, steps = m + 1 := ⟨steps - 1, by omega⟩
    have hnext := fun evs2 => ih (k + 1) steps evs2
      (fun i hi => by
        have := hcont (i + 1) (by omega)
        rwa [show k + (i + 1) = k + 1 + i by omega] at this)
      (by rwa [show k + (n + 1) = k + 1 + n by omega] at hbuf) hrun hr (by omega)
    have h0 := hcont 0 (by omega)
    rw [Nat.add_zero, continues] at h0
    rw [monitorLoop, List.range'_succ, List.flatMap_cons, lineEvents]
    cases hk : console k with
    | none =>
      simp only []
      rw [hnext]
      simp only [List.append_assoc]
    | some b =>
      rw [hk] at h0
      simp only [] at h0 ⊢
      cases hb : runcmd cmds fuel argv b tf with
      | none => rw [hb] at h0; simp at h0
      | some res =>
        obtain ⟨es2, r2⟩ := res
        rw [hb] at h0
        simp only [decide_eq_true_eq] at h0
        simp only []
        rw [if_neg (by omega), hnext]
        simp only [List.append_assoc, List.cons_append, List.nil_append]

theorem lookup_nonzero (fuel argc tf : Nat) (argv : List String) (cmds : List Command) :
    ∀ (i : Nat) (es : List Event) (r : Int),
      lookup fuel argc argv tf cmds i = some (es, r) → r ≠ 0 →
      ∃ j c text, cmds[j]? = some c ∧ c.func fuel argc argv tf = some (text, r)
        ∧ es = [.call (i + j) argc argv tf, .out text] := by
  induction cmds with
  | nil =>
    intro i es r h hr
    simp only [lookup, Option.some.injEq, Prod.mk.injEq] at h
    exact absurd h.2.symm hr
  | cons c cs ih =>
    intro i es r h hr
    rw [lookup] at h
    split at h
    · cases hf : c.func fuel argc argv tf with
      | none => rw [hf] at h; simp at h
      | some res =>
        obtain ⟨text, r2⟩ := res
        rw [hf] at h
        simp only [Option.some.injEq, Prod.mk.injEq] at h
        refine ⟨0, c, text, by simp, ?_, ?_⟩
        · rw [← h.2]; exact hf
        · rw [← h.1]; rfl
    · obtain ⟨j, d, text, hj, hd, hes⟩ := ih _ _ _ h hr
      refine ⟨j + 1, d, text, by simpa using hj, hd, ?_⟩
      rw [hes, show i + 1 + j = i + (j + 1) by omega]

/-- A return value of `runcmd` other than zero is the return value of a
handler that `runcmd` invoked. -/
theorem runcmd_nonzero (cmds : List Command) (fuel : Nat) (argv : Nat → Option Nat)
    (buf : List Char) (tf : Nat) (es : List Event) (r : Int)
    (h : runcmd cmds fuel argv buf tf = some (es, r)) (hr : r ≠ 0) :
    ∃ j c argc args text, cmds[j]? = some c ∧ c.func fuel argc args tf = some (text, r)
      ∧ es = [.call j argc args tf, .out text] := by
  rw [runcmd] at h
  split at h
  · simp at h
  · simp only [Option.some.injEq, Prod.mk.injEq] at h
    exact absurd h.2.symm hr
  · split at h
    · simp only [Option.some.injEq, Prod.mk.injEq] at h
      exact absurd h.2.symm hr
    · obtain ⟨j, c, text, hj, hc, hes⟩ := lookup_nonzero _ _ _ _ _ _ _ _ h hr
      rw [Nat.zero_add] at hes
      exact ⟨j, c, _, _, text, hj, hc, hes⟩

/-! ### The command interpreter and the monitor loop: main results -/

/-- C5: for a NUL-terminated line with at most `MAXARGS - 1 = 15` tokens,
the parsing part of `runcmd` ends normally with `argc` the number of tokens and
`argv[0] .. argv[argc-1]`, read as C strings in the modified buffer, exactly
the maximal non-empty runs of non-whitespace characters of the line from left
to right; no argument is empty and none holds a whitespace character. -/
theorem runcmd_tokenizes (fuel : Nat) (argv : Nat → Option Nat) (buf : List Char)
    (hfuel : buf.length < fuel) (hcount : (tokens buf).length ≤ MAXARGS - 1) :
    ∃ st, parseArgs fuel argv buf = some (.parsed st)
      ∧ st.argc = (tokens buf).length
      ∧ argList st = (tokens buf).map String.mk
      ∧ ∀ t ∈ argList st, t.data ≠ [] ∧ ∀ c ∈ t.data, isWhite c = false := by
  obtain ⟨st, hst, hc, -, -, hargs⟩ := parseArgs_parsed fuel argv buf hfuel hcount
  refine ⟨st, hst, hc, hargs, fun t ht => ?_⟩
  rw [hargs] at ht
  obtain ⟨u, hu, rfl⟩ := List.mem_map.1 ht
  have h := tokens_isArgChar (buf.length + 1) buf (Nat.lt_succ_self _) u hu
  exact ⟨h.1, fun c hc => ((isArgChar_iff c).1 (h.2 c hc)).2⟩

theorem runcmd_tokenizes_witness :
    tokens "  help  me\tnow \n".data = ["help".data, "me".data, "now".data]
      ∧ ∃ st, parseArgs 20 (fun _ => some 7) "  help  me\tnow \n".data = some (.parsed st)
        ∧ st.argc = (tokens "  help  me\tnow \n".data).length
        ∧ argList st = (tokens "  help  me\tnow \n".data).map String.mk
        ∧ ∀ t ∈ argList st, t.data ≠ [] ∧ ∀ c ∈ t.data, isWhite c = false :=
  ⟨by decide,
    runcmd_tokenizes 20 (fun _ => some 7) "  help  me\tnow \n".data (by decide) (by decide)⟩

/-- C6: on a line with `MAXARGS = 16` tokens or more `runcmd` prints the
too-many-arguments message, invokes no handler, whatever the command table
and the first token are, and returns `0`. -/
theorem runcmd_too_many (cmds : List Command) (fuel : Nat) (argv : Nat → Option Nat)
    (buf : List Char) (tf : Nat) (hfuel : buf.length < fuel)
    (hcount : MAXARGS ≤ (tokens buf).length) :
    runcmd cmds fuel argv buf tf = some ([.out "Too many arguments (max 16)\n"], 0) := by
  obtain ⟨st, hst⟩ := parseArgs_tooMany fuel argv buf hfuel hcount
  rw [runcmd, hst]
  simp only [cprintf_tooMany]

theorem runcmd_too_many_witness :
    (tokens "count 2 3 4 5 6 7 8 9 10 11 12 13 14 15 16".data).length = 16
      ∧ runcmd exampleCommands 50 (fun _ => none)
          "count 2 3 4 5 6 7 8 9 10 11 12 13 14 15 16".data 0
        = some ([.out "Too many arguments (max 16)\n"], 0) :=
  ⟨by decide,
    runcmd_too_many exampleCommands 50 (fun _ => none)
      "count 2 3 4 5 6 7 8 9 10 11 12 13 14 15 16".data 0 (by decide) (by decide)⟩

/-- C7: on a line within the token limit whose first token `t` is not the name
of any entry of the command table, `runcmd` prints `Unknown command` followed
by the token in quotes, invokes no handler and returns `0`. -/
theorem runcmd_unknown (cmds : List Command) (fuel : Nat) (argv : Nat → Option Nat)
    (buf : List Char) (tf : Nat) (t : List Char) (rest : List (List Char))
    (hfuel : buf.length < fuel) (hcount : (tokens buf).length ≤ MAXARGS - 1)
    (htok : tokens buf = t :: rest) (hname : ∀ c ∈ cmds, cstr c.name.data ≠ t) :
    runcmd cmds fuel argv buf tf
      = some ([.out ("Unknown command '" ++ String.mk t ++ "'\n")], 0) := by
  have ht : cstr t = t := cstr_token buf t (by rw [htok]; exact List.mem_cons_self _ _)
  rw [runcmd_eq_lookup cmds fuel argv buf tf hfuel hcount, htok, if_neg (by simp),
    lookup_unknown]
  · simp only [List.map_cons, List.headD_cons]
    rw [cprintf_unknown _ ht]
  · intro c hc
    simp only [List.map_cons, List.headD_cons, ht]
    exact hname c hc

theorem runcmd_unknown_witness :
    tokens " Count  a".data = ["Count".data, "a".data]
      ∧ runcmd exampleCommands 20 (fun _ => none) " Count  a".data 0
        = some ([.out "Unknown command 'Count'\n"], 0) :=
  ⟨by decide,
    runcmd_unknown exampleCommands 20 (fun _ => none) " Count  a".data 0 "Count".data
      ["a".data] (by decide) (by decide) (by decide) (by decide)⟩

/-- C8: on a line within the token limit whose first token equals the name of
a table entry, `runcmd` invokes the handler of the first such entry (none of
the entries `pre` before it has that name), once, with the number of tokens,
the list of all tokens and the trap-frame pointer it was given, and returns
what the handler returns; it does not return when the handler does not. -/
theorem runcmd_dispatch (pre post : List Command) (c : Command) (fuel : Nat)
    (argv : Nat → Option Nat) (buf : List Char) (tf : Nat) (t : List Char)
    (rest : List (List Char)) (hfuel : buf.length < fuel)
    (hcount : (tokens buf).length ≤ MAXARGS - 1) (htok : tokens buf = t :: rest)
    (hpre : ∀ d ∈ pre, cstr d.name.data ≠ t) (hc : cstr c.name.data = t) :
    runcmd (pre ++ c :: post) fuel argv buf tf
      = (c.func fuel (rest.length + 1) (String.mk t :: rest.map String.mk) tf).map fun res =>
          ([.call pre.length (rest.length + 1) (String.mk t :: rest.map String.mk) tf,
            .out res.1], res.2) := by
  have ht : cstr t = t := cstr_token buf t (by rw [htok]; exact List.mem_cons_self _ _)
  rw [runcmd_eq_lookup (pre ++ c :: post) fuel argv buf tf hfuel hcount, htok,
    if_neg (by simp), List.length_cons, List.map_cons,
    lookup_first fuel _ tf _ pre post c (by simpa [ht] using hpre) (by simpa [ht] using hc) 0,
    Nat.zero_add]

theorem runcmd_dispatch_witness :
    tokens "count a  b".data = ["count".data, "a".data, "b".data]
      ∧ runcmd exampleCommands 20 (fun _ => none) "count a  b".data 5
        = some ([.call 0 3 ["count", "a", "b"] 5, .out ""], 3) :=
  ⟨by decide,
    (runcmd_dispatch []
      [{ name := "count", desc := "Never reached", func := quit },
        { name := "quit", desc := "Leave the monitor", func := quit }]
      { name := "count", desc := "Count the arguments", func := countArgs } 20 (fun _ => none)
      "count a  b".data 5 "count".data ["a".data, "b".data] (by decide) (by decide) (by decide)
      (by decide) (by decide)).trans (by decide)⟩

/-- C9: on a line without tokens, that is the empty line or a line of
whitespace characters only, `runcmd` prints nothing, invokes no handler and
returns `0`. -/
theorem runcmd_blank (cmds : List Command) (fuel : Nat) (argv : Nat → Option Nat)
    (buf : List Char) (tf : Nat) (hfuel : buf.length < fuel)
    (hblank : ∀ c ∈ cstr buf, isWhite c = true) :
    tokens buf = [] ∧ runcmd cmds fuel argv buf tf = some ([], 0) := by
  have htok : tokens buf = [] := (tokens_eq_nil_iff buf).2 hblank
  refine ⟨htok, ?_⟩
  rw [runcmd_eq_lookup cmds fuel argv buf tf hfuel (by rw [htok]; simp), htok]
  rfl

theorem runcmd_blank_witness :
    (∀ c ∈ cstr " \t \r\n".data, isWhite c = true)
      ∧ tokens " \t \r\n".data = []
      ∧ runcmd exampleCommands 20 (fun _ => none) " \t \r\n".data 0 = some ([], 0) :=
  ⟨by decide, runcmd_blank exampleCommands 20 (fun _ => none) " \t \r\n".data 0 (by decide)
    (by decide)⟩

/-- C10: when the loop of `monitor` reaches call number `n` of `readline` (all
iterations before it go on) and the dispatch of the line read there returns
the sentinel `-1`, which is then the return value of a handler invoked by
this dispatch, `monitor` returns right after this single dispatch: its events
end with the call of `readline` for this line, the handler invocation and the
text the handler printed, and they hold exactly `n + 1` calls of `readline`,
whatever the console would deliver later. -/
theorem monitor_exits_on_sentinel (cmds : List Command) (fuel : Nat) (argv : Nat → Option Nat)
    (console : Nat → Option (List Char)) (tf : Nat) (buf : List Char) (es : List Event)
    (n steps : Nat)
    (hreach : ∀ i, i < n → continues cmds fuel argv console tf i = true)
    (hbuf : console n = some buf) (hrun : runcmd cmds fuel argv buf tf = some (es, -1))
    (hsteps : n < steps) :
    monitor cmds fuel argv console tf steps
        = some ([.out "Welcome to the JOS kernel monitor!\n",
              .out "Type 'help' for a list of commands.\n"]
            ++ (List.range n).flatMap (lineEvents cmds fuel argv console tf)
            ++ .readline (some buf) :: es)
      ∧ readlineCount ([.out "Welcome to the JOS kernel monitor!\n",
              .out "Type 'help' for a list of commands.\n"]
            ++ (List.range n).flatMap (lineEvents cmds fuel argv console tf)
            ++ .readline (some buf) :: es) = n + 1
      ∧ ∃ j c argc args text, cmds[j]? = some c ∧ c.func fuel argc args tf = some (text, -1)
          ∧ es = [.call j argc args tf, .out text] := by
  refine ⟨?_, ?_, runcmd_nonzero cmds fuel argv buf tf es (-1) hrun (by decide)⟩
  · rw [monitor, monitorLoop_exit cmds fuel argv console tf buf es (-1) n 0 steps _
      (by simpa using hreach) (by simpa using hbuf) hrun (by decide) hsteps,
      List.range_eq_range']
    rfl
  · rw [readlineCount_append, readlineCount_append, readlineCount_flatMap, List.length_range]
    have h := runcmd_no_readline cmds fuel argv buf tf es (-1) hrun
    simp only [readlineCount, List.countP_cons, List.countP_nil] at h ⊢
    simp [h]

theorem monitor_exits_on_sentinel_witness :
    exampleConsole 3 = some "count b".data
      ∧ monitor exampleCommands 20 (fun _ => none) exampleConsole 0 10
        = some [.out "Welcome to the JOS kernel monitor!\n",
            .out "Type 'help' for a list of commands.\n",
            .readline (some "count a".data), .call 0 2 ["count", "a"] 0, .out "",
            .readline none,
            .readline (some "quit now".data), .call 2 2 ["quit", "now"] 0, .out "bye\n"] :=
  ⟨by decide,
    ((monitor_exits_on_sentinel exampleCommands 20 (fun _ => none) exampleConsole 0
      "quit now".data [.call 2 2 ["quit", "now"] 0, .out "bye\n"] 2 10 (by decide) (by decide)
      (by decide) (by decide)).1).trans (by decide)⟩


/-! ### The stack backtrace: the walk and the argument words -/

theorem frameBlock_of_state (M : Machine) (i : Nat) (args : Nat → Nat)
    (hargs : ∀ j, 9 ≤ j → args j = M.args j) :
    summaryLine (frameAt M i) (peek M.mem (frameAt M i) 1) (loadArgs M.mem (frameAt M i) args)
        ++ symbolLine (M.debuginfo_eip (peek M.mem (frameAt M i) 1) (infoBefore M i)).2
          (peek M.mem (frameAt M i) 1)
      = frameBlock M i := by
  have hw : loadArgs M.mem (frameAt M i) args = argWords M i := by
    funext j
    simp only [loadArgs, argWords]
    by_cases h : j < 9
    · rw [if_pos h, if_pos h]
    · rw [if_neg h, if_neg h]
      exact hargs j (by omega)
  rw [hw]
  rfl

theorem loadArgs_keeps (mem : Nat → Nat) (ebp : Nat) (args a : Nat → Nat)
    (hargs : ∀ j, 9 ≤ j → args j = a j) : ∀ j, 9 ≤ j → loadArgs mem ebp args j = a j := by
  intro j hj
  simp only [loadArgs]
  rw [if_neg (by omega)]
  exact hargs j hj

/-- One pass through the body of the loop, for the output written so far. -/
theorem backtraceWritten_step (M : Machine) (n ebp : Nat) (args : Nat → Nat)
    (info : Eipdebuginfo) (out : String) (h0 : ebp ≠ 0) :
    backtraceWritten M (n + 1) ebp args info out
      = backtraceWritten M n (peek M.mem ebp 0) (loadArgs M.mem ebp args)
          (M.debuginfo_eip (peek M.mem ebp 1) info).2
          (out ++ (summaryLine ebp (peek M.mem ebp 1) (loadArgs M.mem ebp args)
            ++ symbolLine (M.debuginfo_eip (peek M.mem ebp 1) info).2 (peek M.mem ebp 1))) := by
  rw [backtraceWritten, if_neg h0]
  simp only [nine_stores, foldl_append_eq_join, cprintf_ebp_eip, cprintf_newline,
    cprintf_symbol, cprintf_word]
  congr 1
  simp only [summaryLine, symbolLine, String.append_assoc]

/-- After `n` passes through frames that are not zero the loop has written
the blocks of `n` frames. -/
theorem backtraceWritten_chain (M : Machine) (n : Nat) :
    ∀ (i : Nat) (args : Nat → Nat) (out : String),
      (∀ j, j < n → frameAt M (i + j) ≠ 0) → (∀ j, 9 ≤ j → args j = M.args j) →
      backtraceWritten M n (frameAt M i) args (infoBefore M i) out
        = out ++ String.join ((List.range' i n).map (frameBlock M)) := by
  induction n with
  | zero =>
    intro i args out _ _
    simp [backtraceWritten, join_nil]
  | succ n ih =>
    intro i args out hnz hargs
    have h0 : frameAt M i ≠ 0 := by simpa using hnz 0 (by omega)
    have hnz1 : ∀ j, j < n → frameAt M (i + 1 + j) ≠ 0 := by
      intro j hj
      have := hnz (j + 1) (by omega)
      rwa [show i + (j + 1) = i + 1 + j by omega] at this
    have hstep := ih (i + 1) (loadArgs M.mem (frameAt M i) args)
      (out ++ frameBlock M i) hnz1 (loadArgs_keeps _ _ _ _ hargs)
    rw [backtraceWritten_step M n _ args _ out h0, frameBlock_of_state M i args hargs,
      List.range'_succ, List.map_cons, join_cons, ← String.append_assoc]
    exact hstep

/-- On a chain without a zero frame pointer the loop is still running when
the fuel is used up, however much there is. -/
theorem backtraceLoop_none (M : Machine) (fuel : Nat) :
    ∀ (i : Nat) (args : Nat → Nat) (out : String),
      (∀ j, frameAt M (i + j) ≠ 0) →
      backtraceLoop M fuel (frameAt M i) args (infoBefore M i) out = none := by
  induction fuel with
  | zero => intros; rfl
  | succ fuel ih =>
    intro i args out hnz
    have h0 : frameAt M i ≠ 0 := by simpa using hnz 0
    rw [backtraceLoop_step M fuel _ args _ out h0]
    exact ih (i + 1) _ _ (fun j => by
      have := hnz (j + 1)
      rwa [show i + (j + 1) = i + 1 + j by omega] at this)

theorem summaryLine_congr (ebp eip : Nat) (w v : Nat → Nat) (h : ∀ j, j < 10 → w j = v j) :
    summaryLine ebp eip w = summaryLine ebp eip v := by
  simp only [summaryLine]
  congr 3
  apply List.map_congr_left
  intro j hj
  rw [h j (List.mem_range.mp hj)]

theorem frameAt_selfLoopMachine (i : Nat) : frameAt selfLoopMachine i = 0x1000 := by
  induction i with
  | zero => decide
  | succ i ih =>
    rw [frameAt, ih]
    decide

/-! ### The parsing loop: bounds and the buffer -/

theorem length_blankUpTo (n : Nat) : ∀ l : List Char, (blankUpTo n l).length = l.length := by
  induction n with
  | zero => intro l; rfl
  | succ n ih =>
    intro l
    cases l with
    | nil => rfl
    | cons c l =>
      rw [blankUpTo]
      by_cases h0 : c = '\x00'
      · rw [if_pos h0]
      · rw [if_neg h0, List.length_cons, List.length_cons, ih]

/-- Blanking changes a byte only from whitespace before the terminating NUL
to NUL. -/
theorem getD_blankUpTo (n : Nat) :
    ∀ (l : List Char) (i : Nat),
      (blankUpTo n l).getD i '\x00' = l.getD i '\x00'
        ∨ (isWhite (l.getD i '\x00') = true ∧ i < (cstr l).length
            ∧ (blankUpTo n l).getD i '\x00' = '\x00') := by
  induction n with
  | zero => intro l i; left; rfl
  | succ n ih =>
    intro l i
    cases l with
    | nil => left; rfl
    | cons c l =>
      rw [blankUpTo]
      by_cases h0 : c = '\x00'
      · rw [if_pos h0]; left; rfl
      · rw [if_neg h0, cstr_cons c l h0]
        cases i with
        | zero =>
          by_cases hw : isWhite c = true
          · right
            simp [hw]
          · left
            simp [hw]
        | succ i =>
          simp only [List.getD_cons_succ, List.length_cons]
          rcases ih l i with h | ⟨h1, h2, h3⟩
          · left; exact h
          · right; exact ⟨h1, by omega, h3⟩

theorem blankUpTo_white (j : Nat) (l : List Char) :
    blankUpTo ((l.takeWhile isWhite).length + j) l
      = List.replicate (l.takeWhile isWhite).length '\x00'
        ++ blankUpTo j (l.dropWhile isWhite) := by
  induction l with
  | nil => cases j <;> rfl
  | cons c l ih =>
    by_cases hw : isWhite c = true
    · rw [List.takeWhile_cons_of_pos hw, List.dropWhile_cons_of_pos hw, List.length_cons,
        show (l.takeWhile isWhite).length + 1 + j = ((l.takeWhile isWhite).length + j) + 1
          by omega,
        blankUpTo, if_neg (isWhite_ne_nul c hw), if_pos hw, ih]
      rfl
    · rw [List.takeWhile_cons_of_neg hw, List.dropWhile_cons_of_neg hw]
      simp

theorem blankUpTo_arg (j : Nat) (l : List Char) :
    blankUpTo ((l.takeWhile isArgChar).length + j) l
      = l.takeWhile isArgChar ++ blankUpTo j (l.dropWhile isArgChar) := by
  induction l with
  | nil => cases j <;> rfl
  | cons c l ih =>
    by_cases hc : isArgChar c = true
    · have h := (isArgChar_iff c).1 hc
      rw [List.takeWhile_cons_of_pos hc, List.dropWhile_cons_of_pos hc, List.length_cons,
        show (l.takeWhile isArgChar).length + 1 + j = ((l.takeWhile isArgChar).length + j) + 1
          by omega,
        blankUpTo, if_neg h.1, ih]
      simp [h.2]
    · rw [List.takeWhile_cons_of_neg hc, List.dropWhile_cons_of_neg hc]
      simp

theorem blankOut_eq_blankUpTo (l : List Char) : blankOut l = blankUpTo l.length l := by
  induction l with
  | nil => rfl
  | cons c l ih =>
    rw [blankOut, List.length_cons, blankUpTo, ih]

/-- In the buffer blanked to the end every whitespace byte before the
terminating NUL has become NUL. -/
theorem getD_blankOut (l : List Char) :
    ∀ i, i < (cstr l).length → isWhite (l.getD i '\x00') = true →
      (blankOut l).getD i '\x00' = '\x00' := by
  induction l with
  | nil => intro i hi; simp [cstr_nil] at hi
  | cons c l ih =>
    intro i hi hw
    by_cases h0 : c = '\x00'
    · subst h0
      simp [cstr_cons_nul] at hi
    · rw [blankOut, if_neg h0]
      rw [cstr_cons c l h0] at hi
      cases i with
      | zero =>
        simp only [List.getD_cons_zero] at hw ⊢
        rw [if_pos hw]
      | succ i =>
        simp only [List.getD_cons_succ, List.length_cons] at hw hi ⊢
        exact ih i (by omega) hw

/-- The parsing loop always ends when the fuel exceeds the length of the
line: no store into `argv` falls outside the array, the counter ends at
`MAXARGS - 1` at most, and the buffer is the line with the whitespace among
its first bytes blanked. -/
theorem parseLoop_total (fuel : Nat) :
    ∀ (done buf : List Char) (argc : Nat) (argv : Nat → Option Nat),
      buf.length < fuel → argc ≤ MAXARGS - 1 →
      ∃ res, parseLoop fuel ⟨done, buf, argc, argv⟩ = some res
        ∧ res.state.argc ≤ MAXARGS - 1
        ∧ ∃ j, res.state.done ++ res.state.buf = done ++ blankUpTo j buf := by
  induction fuel with
  | zero => intro _ buf _ _ h; exact absurd h (Nat.not_lt_zero _)
  | succ fuel ih =>
    intro done buf argc argv hlen hargc
    rw [parseLoop_succ]
    simp only []
    have hle := length_dropWhile_le isWhite buf
    have hmem0 : done ++ List.replicate (buf.takeWhile isWhite).length '\x00'
        ++ buf.dropWhile isWhite = done ++ blankUpTo ((buf.takeWhile isWhite).length + 0) buf := by
      rw [blankUpTo_white, List.append_assoc]
      rfl
    by_cases hend : deref (buf.dropWhile isWhite) = '\x00'
    · rw [if_pos hend]
      exact ⟨_, rfl, hargc, _, hmem0⟩
    · rw [if_neg hend]
      by_cases h15 : argc = MAXARGS - 1
      · rw [if_pos h15]
        exact ⟨_, rfl, hargc, _, hmem0⟩
      · rw [if_neg h15]
        have hw := isWhite_deref_dropWhile buf
        have hlt := length_dropWhile_isArgChar_lt _ hend hw
        rw [storeArgv, if_pos (by simp only [MAXARGS] at hargc h15 ⊢; omega)]
        simp only []
        obtain ⟨res, hres, hc, j, hj⟩ := ih
          (done ++ List.replicate (buf.takeWhile isWhite).length '\x00'
            ++ (buf.dropWhile isWhite).takeWhile isArgChar)
          ((buf.dropWhile isWhite).dropWhile isArgChar) (argc + 1)
          (fun j => if j = argc
            then some (done ++ List.replicate (buf.takeWhile isWhite).length '\x00').length
            else argv j)
          (by omega) (by omega)
        refine ⟨res, hres, hc,
          (buf.takeWhile isWhite).length
            + (((buf.dropWhile isWhite).takeWhile isArgChar).length + j), ?_⟩
        rw [hj, blankUpTo_white, blankUpTo_arg]
        simp only [List.append_assoc]

theorem parseLoop_tooMany_argc (fuel : Nat) :
    ∀ (st : ParseState) (st2 : ParseState),
      parseLoop fuel st = some (.tooMany st2) → st2.argc = MAXARGS - 1 := by
  induction fuel with
  | zero => intro st st2 h; simp [parseLoop] at h
  | succ fuel ih =>
    intro st st2 h
    rw [parseLoop_succ] at h
    split at h
    · simp at h
    · split at h
      · simp only [Option.some.injEq, ParseResult.tooMany.injEq] at h
        rw [← h]
        assumption
      · split at h
        · simp at h
        · exact ih _ _ h

/-- The parsing part of `runcmd` always ends when the fuel exceeds the length
of the line. -/
theorem parseArgs_total (fuel : Nat) (argv : Nat → Option Nat) (buf : List Char)
    (hfuel : buf.length < fuel) :
    ∃ res, parseArgs fuel argv buf = some res
      ∧ res.state.argc ≤ MAXARGS - 1
      ∧ (∃ j, res.state.done ++ res.state.buf = blankUpTo j buf)
      ∧ (∀ st, res = .parsed st → st.argv st.argc = none)
      ∧ (∀ st, res = .tooMany st → st.argc = MAXARGS - 1) := by
  have h0 : storeArgv argv 0 none = some (fun j => if j = 0 then none else argv j) := by
    rw [storeArgv, if_pos (by decide)]
  obtain ⟨res, hres, hc, j, hj⟩ := parseLoop_total fuel [] buf 0
    (fun j => if j = 0 then none else argv j) hfuel (by decide)
  rw [List.nil_append] at hj
  cases res with
  | tooMany st =>
    refine ⟨.tooMany st, ?_, hc, ⟨j, hj⟩, fun st2 h => by simp at h, fun st2 h => ?_⟩
    · rw [parseArgs, h0]
      simp only [hres]
    · simp only [ParseResult.tooMany.injEq] at h
      rw [← h]
      exact parseLoop_tooMany_argc fuel _ _ hres
  | parsed st =>
    have hc2 : st.argc ≤ MAXARGS - 1 := hc
    have h1 : storeArgv st.argv st.argc none
        = some (fun j => if j = st.argc then none else st.argv j) := by
      rw [storeArgv, if_pos (by simp only [MAXARGS] at hc2 ⊢; omega)]
    refine ⟨.parsed { st with argv := fun j => if j = st.argc then none else st.argv j }, ?_,
      hc, ⟨j, hj⟩, fun st2 h => ?_, fun st2 h => by simp at h⟩
    · rw [parseArgs, h0]
      simp only [hres, h1]
    · simp only [ParseResult.parsed.injEq] at h
      rw [← h]
      simp

/-- The parsing loop is left through `break` only on a line with at most
`MAXARGS - 1` tokens. -/
theorem parseArgs_parsed_count (fuel : Nat) (argv : Nat → Option Nat) (buf : List Char)
    (hfuel : buf.length < fuel) (st : ParseState)
    (h : parseArgs fuel argv buf = some (.parsed st)) : (tokens buf).length ≤ MAXARGS - 1 := by
  by_contra hn
  obtain ⟨st2, h2⟩ := parseArgs_tooMany fuel argv buf hfuel
    (by simp only [MAXARGS] at hn ⊢; omega)
  rw [h] at h2
  simp at h2

/-! ### The monitor loop: how it can end -/

/-- When the loop of `monitor` returns, it does so right after the dispatch
of a line whose return value is negative, all iterations before going on. -/
theorem monitorLoop_some (cmds : List Command) (fuel : Nat) (argv : Nat → Option Nat)
    (console : Nat → Option (List Char)) (tf : Nat) (steps : Nat) :
    ∀ (k : Nat) (evs out : List Event),
      monitorLoop cmds fuel argv console tf steps k evs = some out →
      ∃ n buf es r, n < steps
        ∧ (∀ i, i < n → continues cmds fuel argv console tf (k + i) = true)
        ∧ console (k + n) = some buf ∧ runcmd cmds fuel argv buf tf = some (es, r) ∧ r < 0
        ∧ out = evs ++ (List.range' k n).flatMap (lineEvents cmds fuel argv console tf)
            ++ .readline (some buf) :: es := by
  induction steps with
  | zero => intro k evs out h; simp [monitorLoop] at h
  | succ steps ih =>
    intro k evs out h
    rw [monitorLoop] at h
    have hshift : ∀ n, (∀ i, i < n → continues cmds fuel argv console tf (k + 1 + i) = true) →
        continues cmds fuel argv console tf k = true →
        ∀ i, i < n + 1 → continues cmds fuel argv console tf (k + i) = true := by
      intro n hn h0 i hi
      cases i with
      | zero => exact h0
      | succ i =>
        have := hn i (by omega)
        rwa [show k + 1 + i = k + (i + 1) by omega] at this
    cases hk : console k with
    | none =>
      rw [hk] at h
      simp only [] at h
      obtain ⟨n, buf, es, r, hn, hcont, hbuf, hrun, hr, hout⟩ := ih _ _ _ h
      refine ⟨n + 1, buf, es, r, by omega,
        hshift n hcont (by simp [continues, hk]),
        by rwa [show k + (n + 1) = k + 1 + n by omega], hrun, hr, ?_⟩
      rw [hout, List.range'_succ, List.flatMap_cons, lineEvents, hk]
      simp only [List.append_assoc]
    | some b =>
      rw [hk] at h
      simp only [] at h
      cases hb : runcmd cmds fuel argv b tf with
      | none => rw [hb] at h; simp at h
      | some res =>
        obtain ⟨es2, r2⟩ := res
        rw [hb] at h
        simp only [] at h
        by_cases hr2 : r2 < 0
        · rw [if_pos hr2] at h
          simp only [Option.some.injEq] at h
          refine ⟨0, b, es2, r2, by omega, fun i hi => absurd hi (Nat.not_lt_zero _),
            by simpa using hk, hb, hr2, ?_⟩
          rw [← h]
          simp
        · rw [if_neg hr2] at h
          obtain ⟨n, buf, es, r, hn, hcont, hbuf, hrun, hr, hout⟩ := ih _ _ _ h
          refine ⟨n + 1, buf, es, r, by omega,
            hshift n hcont (by simp [continues, hk, hb]; omega),
            by rwa [show k + (n + 1) = k + 1 + n by omega], hrun, hr, ?_⟩
          rw [hout, List.range'_succ, List.flatMap_cons, lineEvents, hk]
          simp only [hb, List.append_assoc, List.cons_append, List.nil_append]

/-- While every iteration goes on the loop of `monitor` does not return. -/
theorem monitorLoop_none (cmds : List Command) (fuel : Nat) (argv : Nat → Option Nat)
    (console : Nat → Option (List Char)) (tf : Nat)
    (hcont : ∀ n, continues cmds fuel argv console tf n = true) (steps k : Nat)
    (evs : List Event) : monitorLoop cmds fuel argv console tf steps k evs = none := by
  cases h : monitorLoop cmds fuel argv console tf steps k evs with
  | none => rfl
  | some out =>
    obtain ⟨n, buf, es, r, -, -, hbuf, hrun, hr, -⟩ := monitorLoop_some _ _ _ _ _ _ _ _ _ h
    have hc := hcont (k + n)
    rw [continues, hbuf] at hc
    simp only [hrun, decide_eq_true_eq] at hc
    omega

theorem continues_of_nonneg (cmds : List Command) (fuel : Nat) (argv : Nat → Option Nat)
    (console : Nat → Option (List Char)) (tf n : Nat) (buf : List Char) (es : List Event)
    (r : Int) (hbuf : console n = some buf) (hrun : runcmd cmds fuel argv buf tf = some (es, r)) :
    continues cmds fuel argv console tf n = decide (0 ≤ r) := by
  rw [continues, hbuf]
  simp only [hrun]

/-! ### The default command table -/

theorem lookup_zero (fuel argc tf : Nat) (argv : List String) (cmds : List Command)
    (h : ∀ c ∈ cmds, ∃ text, c.func fuel argc argv tf = some (text, 0)) :
    ∀ i, ∃ es, lookup fuel argc argv tf cmds i = some (es, 0) := by
  induction cmds with
  | nil => intro i; exact ⟨_, rfl⟩
  | cons c cs ih =>
    intro i
    rw [lookup]
    split
    · obtain ⟨text, ht⟩ := h c (List.mem_cons_self c cs)
      rw [ht]
      exact ⟨_, rfl⟩
    · exact ih (fun d hd => h d (List.mem_cons_of_mem c hd)) (i + 1)

/-- With a table whose handlers all return `0`, `runcmd` returns `0` on every
line. -/
theorem runcmd_zero (cmds : List Command) (fuel : Nat) (argv : Nat → Option Nat)
    (buf : List Char) (tf : Nat) (hfuel : buf.length < fuel)
    (h : ∀ c ∈ cmds, ∀ argc args, ∃ text, c.func fuel argc args tf = some (text, 0)) :
    ∃ es, runcmd cmds fuel argv buf tf = some (es, 0) := by
  obtain ⟨res, hres, -⟩ := parseArgs_total fuel argv buf hfuel
  rw [runcmd, hres]
  cases res with
  | tooMany st => exact ⟨_, rfl⟩
  | parsed st =>
    simp only []
    split
    · exact ⟨_, rfl⟩
    · exact lookup_zero fuel _ tf _ cmds (fun c hc => h c hc _ _) 0

theorem commands_zero (M : Machine) (K : KernelImage) (k fuel tf : Nat) (hk : ChainEnds M k)
    (hf : k < fuel) :
    ∀ c ∈ commands M K, ∀ argc args, ∃ text, c.func fuel argc args tf = some (text, 0) := by
  intro c hc argc args
  simp only [commands, List.mem_cons, List.mem_singleton, List.not_mem_nil, or_false] at hc
  rcases hc with rfl | rfl | rfl | rfl
  · exact ⟨_, rfl⟩
  · exact ⟨_, rfl⟩
  · exact ⟨_, mon_backtrace_output M k fuel argc tf args hk hf⟩
  · exact ⟨_, rfl⟩

theorem cprintf_help (name desc : String) (hn : cstr name.data = name.data)
    (hd : cstr desc.data = desc.data) :
    cprintf "%s - %s\n" [.str name, .str desc] = name ++ " - " ++ desc ++ "\n" := by
  apply String.ext
  simp [cprintf, vprintfmt, padLeft, hn, hd]

theorem defaultConsole_length (n : Nat) (buf : List Char) (h : defaultConsole n = some buf) :
    buf.length < 20 := by
  rw [defaultConsole] at h
  split at h
  · simp only [Option.some.injEq] at h; rw [← h]; decide
  · split at h
    · simp only [Option.some.injEq] at h; rw [← h]; decide
    · split at h
      · simp only [Option.some.injEq] at h; rw [← h]; decide
      · simp only [Option.some.injEq] at h; rw [← h]; decide

theorem readlineCount_cons_readline (b : Option (List Char)) (es : List Event) :
    readlineCount (.readline b :: es) = readlineCount es + 1 := by
  simp [readlineCount]

/-! ### The default command table and the parsing loop: what always holds -/

theorem parseLoop_argv_above (fuel : Nat) :
    ∀ (st : ParseState) (res : ParseResult), parseLoop fuel st = some res →
      st.argc ≤ res.state.argc ∧ ∀ i, res.state.argc ≤ i → res.state.argv i = st.argv i := by
  induction fuel with
  | zero => intro st res h; simp [parseLoop] at h
  | succ fuel ih =>
    intro st res h
    rw [parseLoop_succ] at h
    split at h
    · simp only [Option.some.injEq] at h
      rw [← h]
      exact ⟨Nat.le_refl _, fun _ _ => rfl⟩
    · split at h
      · simp only [Option.some.injEq] at h
        rw [← h]
        exact ⟨Nat.le_refl _, fun _ _ => rfl⟩
      · by_cases hlt : st.argc < MAXARGS
        · rw [storeArgv, if_pos hlt] at h
          obtain ⟨hle, hkeep⟩ := ih _ _ h
          simp only [] at hle hkeep
          refine ⟨by omega, fun i hi => ?_⟩
          rw [hkeep i hi, if_neg (by omega)]
        · rw [storeArgv, if_neg hlt] at h
          simp at h

/-- On the too-many-arguments return the counter is `MAXARGS - 1` and the
entry `argv[MAXARGS - 1]` still holds what it held on entry. -/
theorem parseArgs_tooMany_argv (fuel : Nat) (argv : Nat → Option Nat) (buf : List Char)
    (st : ParseState) (h : parseArgs fuel argv buf = some (.tooMany st)) :
    st.argc = MAXARGS - 1 ∧ st.argv (MAXARGS - 1) = argv (MAXARGS - 1) := by
  have h0 : storeArgv argv 0 none = some (fun j => if j = 0 then none else argv j) := by
    rw [storeArgv, if_pos (by decide)]
  rw [parseArgs, h0] at h
  simp only [] at h
  cases hres : parseLoop fuel
      { done := [], buf := buf, argc := 0, argv := fun j => if j = 0 then none else argv j } with
  | none => rw [hres] at h; simp at h
  | some res =>
    rw [hres] at h
    cases res with
    | parsed st2 =>
      simp only [] at h
      split at h <;> simp at h
    | tooMany st2 =>
      simp only [Option.some.injEq, ParseResult.tooMany.injEq] at h
      subst h
      have hc := parseLoop_tooMany_argc fuel _ _ hres
      have hk := (parseLoop_argv_above fuel _ _ hres).2 (MAXARGS - 1) (by
        show st2.argc ≤ MAXARGS - 1
        omega)
      refine ⟨hc, ?_⟩
      rw [show (ParseResult.tooMany st2).state = st2 from rfl] at hk
      rw [hk]
      simp [MAXARGS]

theorem lookup_zero_of_match (fuel argc tf : Nat) (argv : List String) (cmds : List Command)
    (h : ∀ c ∈ cmds, strcmp (argv.headD "").data c.name.data = 0 →
      ∃ text, c.func fuel argc argv tf = some (text, 0)) :
    ∀ i, ∃ es, lookup fuel argc argv tf cmds i = some (es, 0) := by
  induction cmds with
  | nil => intro i; exact ⟨_, rfl⟩
  | cons c cs ih =>
    intro i
    rw [lookup]
    split
    · rename_i hm
      obtain ⟨text, ht⟩ := h c (List.mem_cons_self c cs) hm
      rw [ht]
      exact ⟨_, rfl⟩
    · exact ih (fun d hd => h d (List.mem_cons_of_mem c hd)) (i + 1)

/-- Whatever a handler of the default table returns is `0`. -/
theorem commands_return_zero (M : Machine) (K : KernelImage) (fuel tf : Nat) :
    ∀ c ∈ commands M K, ∀ (argc : Nat) (args : List String) (text : String) (r : Int),
      c.func fuel argc args tf = some (text, r) → r = 0 := by
  intro c hc argc args text r h
  simp only [commands, List.mem_cons, List.mem_singleton, List.not_mem_nil, or_false] at hc
  rcases hc with rfl | rfl | rfl | rfl
  · simp only [mon_help, Option.some.injEq, Prod.mk.injEq] at h
    exact h.2.symm
  · simp only [mon_kerninfo, Option.some.injEq, Prod.mk.injEq] at h
    exact h.2.symm
  · simp only [mon_backtrace] at h
    split at h
    · simp at h
    · simp only [Option.some.injEq, Prod.mk.injEq] at h
      exact h.2.symm
  · simp only [mydisplay, Option.some.injEq, Prod.mk.injEq] at h
    exact h.2.symm

/-- With the default table a dispatch that returns at all returns `0`. -/
theorem runcmd_commands_zero (M : Machine) (K : KernelImage) (fuel : Nat)
    (argv : Nat → Option Nat) (buf : List Char) (tf : Nat) (es : List Event) (r : Int)
    (h : runcmd (commands M K) fuel argv buf tf = some (es, r)) : r = 0 := by
  by_contra hr
  obtain ⟨j, c, argc, args, text, hj, hc, -⟩ :=
    runcmd_nonzero (commands M K) fuel argv buf tf es r h hr
  exact hr (commands_return_zero M K fuel tf c (List.getElem?_mem hj) argc args text r hc)

/-- With the default table a dispatch returns, and returns `0`, on every
line that does not ask for a backtrace, and on every line when the
frame-pointer chain reaches zero. -/
theorem runcmd_commands_returns (M : Machine) (K : KernelImage) (fuel : Nat)
    (argv : Nat → Option Nat) (buf : List Char) (tf : Nat) (hfuel : buf.length < fuel)
    (hbt : (tokens buf).head? ≠ some "backtrace".data ∨ ∃ k, ChainEnds M k ∧ k < fuel) :
    ∃ es, runcmd (commands M K) fuel argv buf tf = some (es, 0) := by
  by_cases hcount : (tokens buf).length ≤ MAXARGS - 1
  · rw [runcmd_eq_lookup (commands M K) fuel argv buf tf hfuel hcount]
    split
    · exact ⟨_, rfl⟩
    · cases htok : tokens buf with
      | nil => exact ⟨_, rfl⟩
      | cons t rest =>
        have ht : cstr t = t := cstr_token buf t (by rw [htok]; exact List.mem_cons_self _ _)
        apply lookup_zero_of_match
        intro c hc hm
        simp only [List.map_cons, List.headD_cons, strcmp_eq_zero_iff, ht] at hm
        simp only [commands, List.mem_cons, List.mem_singleton, List.not_mem_nil, or_false] at hc
        rcases hc with rfl | rfl | rfl | rfl
        · exact ⟨_, rfl⟩
        · exact ⟨_, rfl⟩
        · rcases hbt with hne | ⟨k, hk, hf⟩
          · exfalso
            apply hne
            rw [htok, List.head?_cons, hm]
            rfl
          · exact ⟨_, mon_backtrace_output M k fuel (t :: rest).length tf
              ((t :: rest).map String.mk) hk hf⟩
        · exact ⟨_, rfl⟩
  · obtain ⟨st, hst⟩ := parseArgs_tooMany fuel argv buf hfuel
      (by simp only [MAXARGS] at hcount ⊢; omega)
    rw [runcmd, hst]
    exact ⟨_, rfl⟩

theorem frameAt_selfLoopMachine_ne (i : Nat) : frameAt selfLoopMachine i ≠ 0 := by
  rw [frameAt_selfLoopMachine]
  decide

/-! ### Further results on the stack backtrace -/

/-- C15: the walk of `mon_backtrace` ends at a zero frame pointer and nowhere
else. When the chain reaches zero after `k` links it prints the blocks of
exactly these `k` frames and returns; when the initial frame pointer is zero
the loop prints nothing, the heading being all the output; and on a chain
that never reaches zero `mon_backtrace` does not return, whatever the fuel,
its loop having written the blocks of `n` frames after `n` passes, for every
`n`. -/
theorem mon_backtrace_stops_only_at_zero (M : Machine) (argc tf : Nat) (argv : List String) :
    (∀ k fuel, ChainEnds M k → k < fuel →
        mon_backtrace M fuel argc argv tf
          = some ("Stack backtrace:\n" ++ String.join ((List.range k).map (frameBlock M)), 0))
      ∧ (read_ebp M = 0 → ∀ fuel, 0 < fuel →
          mon_backtrace M fuel argc argv tf = some ("Stack backtrace:\n", 0))
      ∧ ((∀ i, frameAt M i ≠ 0) →
          (∀ fuel, mon_backtrace M fuel argc argv tf = none)
            ∧ ∀ n, backtraceWritten M n (read_ebp M) M.args M.info
                  (cprintf "Stack backtrace:\n" [])
                = "Stack backtrace:\n" ++ String.join ((List.range n).map (frameBlock M))) := by
  refine ⟨fun k fuel hk hf => mon_backtrace_output M k fuel argc tf argv hk hf,
    fun h0 fuel hf => ?_, fun hnz => ⟨fun fuel => ?_, fun n => ?_⟩⟩
  · have h := mon_backtrace_output M 0 fuel argc tf argv ⟨fun i hi => absurd hi (by omega), h0⟩ hf
    rw [h]
    simp [join_nil]
  · have h := backtraceLoop_none M fuel 0 M.args (cprintf "Stack backtrace:\n" [])
      (fun j => by simpa using hnz j)
    simp only [frameAt, infoBefore] at h
    rw [mon_backtrace, h]
  · have h := backtraceWritten_chain M n 0 M.args (cprintf "Stack backtrace:\n" [])
      (fun j _ => by simpa using hnz j) (fun _ _ => rfl)
    simp only [frameAt, infoBefore] at h
    rw [h, cprintf_header, List.range_eq_range']

theorem mon_backtrace_stops_only_at_zero_witness :
    (ChainEnds exampleMachine 2 ∧
        mon_backtrace exampleMachine 3 0 [] 0
          = some ("Stack backtrace:\n"
              ++ String.join ((List.range 2).map (frameBlock exampleMachine)), 0))
      ∧ (read_ebp noFrameMachine = 0 ∧
          mon_backtrace noFrameMachine 1 0 [] 0 = some ("Stack backtrace:\n", 0))
      ∧ ((∀ i, frameAt selfLoopMachine i ≠ 0) ∧ mon_backtrace selfLoopMachine 100 0 [] 0 = none
          ∧ backtraceWritten selfLoopMachine 2 (read_ebp selfLoopMachine) selfLoopMachine.args
              selfLoopMachine.info (cprintf "Stack backtrace:\n" [])
            = "Stack backtrace:\n"
              ++ "  ebp 00001000  eip 00100020  args 00000000 00000000 00000000 00000000 00000000"
              ++ " 00000000 00000000 00000000 00000000 00000000\n"
              ++ "         a.c:5: foo+32\n"
              ++ "  ebp 00001000  eip 00100020  args 00000000 00000000 00000000 00000000 00000000"
              ++ " 00000000 00000000 00000000 00000000 00000000\n"
              ++ "         a.c:5: foo+32\n") :=
  ⟨⟨by decide,
      (mon_backtrace_stops_only_at_zero exampleMachine 0 0 []).1 2 3 (by decide) (by decide)⟩,
    ⟨by decide,
      (mon_backtrace_stops_only_at_zero noFrameMachine 0 0 []).2.1 (by decide) 1 (by decide)⟩,
    ⟨fun i => by rw [frameAt_selfLoopMachine]; decide,
      ((mon_backtrace_stops_only_at_zero selfLoopMachine 0 0 []).2.2
        (fun i => by rw [frameAt_selfLoopMachine]; decide)).1 100,
      (((mon_backtrace_stops_only_at_zero selfLoopMachine 0 0 []).2.2
        (fun i => by rw [frameAt_selfLoopMachine]; decide)).2 2).trans (by decide)⟩⟩

/-- C17: on every frame line of a backtrace the first nine argument words
printed are the stack words `ebp[2] .. ebp[10]` in this order, and the tenth
is the content `args[9]` had when `mon_backtrace` was entered: it is not read
from the memory and is the same on every frame line. -/
theorem mon_backtrace_nine_words (M : Machine) (k fuel argc tf : Nat) (argv : List String)
    (hk : ChainEnds M k) (hf : k < fuel) :
    mon_backtrace M fuel argc argv tf
      = some ("Stack backtrace:\n" ++ String.join ((List.range k).map fun i =>
          ("  ebp " ++ hex8 (frameAt M i) ++ "  eip " ++ hex8 (peek M.mem (frameAt M i) 1)
            ++ "  args"
            ++ String.join [" " ++ hex8 (peek M.mem (frameAt M i) 2),
                " " ++ hex8 (peek M.mem (frameAt M i) 3),
                " " ++ hex8 (peek M.mem (frameAt M i) 4),
                " " ++ hex8 (peek M.mem (frameAt M i) 5),
                " " ++ hex8 (peek M.mem (frameAt M i) 6),
                " " ++ hex8 (peek M.mem (frameAt M i) 7),
                " " ++ hex8 (peek M.mem (frameAt M i) 8),
                " " ++ hex8 (peek M.mem (frameAt M i) 9),
                " " ++ hex8 (peek M.mem (frameAt M i) 10),
                " " ++ hex8 (M.args 9)]
            ++ "\n")
          ++ symbolLine (infoAt M i) (eipAt M i)), 0) := by
  rw [mon_backtrace_output M k fuel argc tf argv hk hf]
  rfl

theorem mon_backtrace_nine_words_witness :
    ChainEnds tenWordsMachine 1 ∧ tenWordsMachine.args 9 = 0xcccccccc ∧
      mon_backtrace tenWordsMachine 2 0 [] 0
        = some ("Stack backtrace:\n"
            ++ "  ebp 00001000  eip 00100020  args 00000001 00000002 00000003 00000004 00000005"
            ++ " 00000006 00000007 00000008 00000009 cccccccc\n"
            ++ "         a.c:5: foo+32\n", 0) :=
  ⟨by decide, by decide,
    (mon_backtrace_nine_words tenWordsMachine 1 2 0 0 [] (by decide) (by decide)).trans
      (by decide)⟩

/-! ### Further results on the command interpreter -/

/-- C16, refuted: a line with exactly sixteen tokens, the first of which names
a registered command, is not dispatched; `runcmd` reports the too-many-arguments
error, although the message itself announces a maximum of 16. -/
theorem runcmd_sixteen_tokens_rejected :
    (tokens "count a b c d e f g h i j k l m n o".data).length = 16
      ∧ runcmd exampleCommands 40 (fun _ => none) "count a b c d e f g h i j k l m n o".data 0
        = some ([.out "Too many arguments (max 16)\n"], 0) := by
  decide

/-- C16 as amended: the largest number of tokens `runcmd` accepts on one line
is `MAXARGS - 1 = 15`. Every line with at most 15 tokens leaves the parsing loop
through `break` and is dispatched (nothing happens when it is empty, otherwise
its first token is looked up); every line with more than 15 tokens leaves the
loop through the error return and only the too-many-arguments message is
printed. -/
theorem runcmd_token_limit (cmds : List Command) (fuel : Nat) (argv : Nat → Option Nat)
    (buf : List Char) (tf : Nat) (hfuel : buf.length < fuel) :
    ((tokens buf).length ≤ 15 →
        (∃ st, parseArgs fuel argv buf = some (.parsed st))
          ∧ runcmd cmds fuel argv buf tf
            = if (tokens buf).length = 0 then some ([], 0)
              else lookup fuel (tokens buf).length ((tokens buf).map String.mk) tf cmds 0)
      ∧ (15 < (tokens buf).length →
          (∃ st, parseArgs fuel argv buf = some (.tooMany st))
            ∧ runcmd cmds fuel argv buf tf = some ([.out "Too many arguments (max 16)\n"], 0)) := by
  constructor
  · intro h
    obtain ⟨st, hst, -⟩ := parseArgs_parsed fuel argv buf hfuel h
    exact ⟨⟨st, hst⟩, runcmd_eq_lookup cmds fuel argv buf tf hfuel h⟩
  · intro h
    obtain ⟨st, hst⟩ := parseArgs_tooMany fuel argv buf hfuel h
    refine ⟨⟨st, hst⟩, ?_⟩
    rw [runcmd, hst]
    simp only [cprintf_tooMany]

theorem runcmd_token_limit_witness :
    ((tokens "count a b c d e f g h i j k l m n".data).length = 15
        ∧ runcmd exampleCommands 40 (fun _ => none) "count a b c d e f g h i j k l m n".data 0
          = some ([.call 0 15 ["count", "a", "b", "c", "d", "e", "f", "g", "h", "i", "j", "k",
              "l", "m", "n"] 0, .out ""], 15))
      ∧ ((tokens "count a b c d e f g h i j k l m n o p".data).length = 17
        ∧ runcmd exampleCommands 40 (fun _ => none) "count a b c d e f g h i j k l m n o p".data 0
          = some ([.out "Too many arguments (max 16)\n"], 0)) :=
  ⟨⟨by decide,
      (((runcmd_token_limit exampleCommands 40 (fun _ => none)
        "count a b c d e f g h i j k l m n".data 0 (by decide)).1 (by decide)).2).trans
        (by decide)⟩,
    ⟨by decide,
      ((runcmd_token_limit exampleCommands 40 (fun _ => none)
        "count a b c d e f g h i j k l m n o p".data 0 (by decide)).2 (by decide)).2⟩⟩

/-- C18, refuted: on a line with seventeen tokens, parsed with `some 7` in
every slot of `argv` on entry, `runcmd` leaves its parsing loop through the
too-many-arguments return with `argc = 15`, and `argv[argc]` is not NULL: it
still holds `some 7`, no store having reached index 15. -/
theorem runcmd_too_many_argv_not_null :
    (tokens "count a b c d e f g h i j k l m n o p".data).length = 17
      ∧ ((parseArgs 40 (fun _ => some 7) "count a b c d e f g h i j k l m n o p".data).map
          fun res => (res.state.argc, res.state.argv res.state.argc,
            match res with
            | .tooMany _ => true
            | .parsed _ => false))
        = some (15, some 7, true) := by
  decide

/-- C18 as amended: for every line the parsing part of `runcmd` ends without a
store outside `argv` (a store at an index of `MAXARGS = 16` or more has no
result in this model) and with the counter `argc` at `MAXARGS - 1 = 15` at
most. On a line with at most 15 tokens the loop is left through `break`, `argc`
is the number of tokens and `argv[argc]` is NULL; on a line with more than 15
tokens the loop is left through the error return with `argc = 15`, and
`argv[15]` was never written: it holds what it held on entry. -/
theorem runcmd_argv_in_bounds (fuel : Nat) (argv : Nat → Option Nat) (buf : List Char)
    (hfuel : buf.length < fuel) :
    (∀ (a : Nat → Option Nat) (i : Nat) (v : Option Nat), MAXARGS ≤ i → storeArgv a i v = none)
      ∧ ∃ res, parseArgs fuel argv buf = some res
        ∧ res.state.argc ≤ 15
        ∧ ((tokens buf).length ≤ 15 →
            ∃ st, res = .parsed st ∧ st.argc = (tokens buf).length ∧ st.argv st.argc = none)
        ∧ (15 < (tokens buf).length →
            ∃ st, res = .tooMany st ∧ st.argc = 15 ∧ st.argv 15 = argv 15) := by
  refine ⟨fun a i v hi => ?_, ?_⟩
  · rw [storeArgv, if_neg (by omega)]
  · obtain ⟨res, hres, hc, -, -, -⟩ := parseArgs_total fuel argv buf hfuel
    refine ⟨res, hres, hc, fun hle => ?_, fun hgt => ?_⟩
    · obtain ⟨st, hst, hargc, -, hnull, -⟩ := parseArgs_parsed fuel argv buf hfuel hle
      rw [hres] at hst
      simp only [Option.some.injEq] at hst
      exact ⟨st, hst, hargc, hnull⟩
    · obtain ⟨st, hst⟩ := parseArgs_tooMany fuel argv buf hfuel hgt
      obtain ⟨h15, hkeep⟩ := parseArgs_tooMany_argv fuel argv buf st hst
      rw [hres] at hst
      simp only [Option.some.injEq] at hst
      exact ⟨st, hst, h15, hkeep⟩

theorem runcmd_argv_in_bounds_witness :
    (∃ res st, parseArgs 40 (fun _ => some 7) "count a b c d e f g h i j k l m n".data = some res
        ∧ res = .parsed st ∧ st.argc = 15 ∧ st.argv st.argc = none)
      ∧ ∃ res st,
          parseArgs 40 (fun _ => some 7) "count a b c d e f g h i j k l m n o p".data = some res
            ∧ res = .tooMany st ∧ st.argc = 15 ∧ st.argv 15 = some 7 := by
  constructor
  · obtain ⟨res, hres, -, hp, -⟩ := (runcmd_argv_in_bounds 40 (fun _ => some 7)
      "count a b c d e f g h i j k l m n".data (by decide)).2
    obtain ⟨st, hst, hargc, hnull⟩ := hp (by decide)
    exact ⟨res, st, hres, hst, hargc.trans (by decide), hnull⟩
  · obtain ⟨res, hres, -, -, ht⟩ := (runcmd_argv_in_bounds 40 (fun _ => some 7)
      "count a b c d e f g h i j k l m n o p".data (by decide)).2
    obtain ⟨st, hst, hargc, hkeep⟩ := ht (by decide)
    exact ⟨res, st, hres, hst, hargc, hkeep⟩

/-- C19: for every line the parsing part of `runcmd` ends with a buffer of the
same length in which a byte differs from the original only by being NUL where
the line had a whitespace byte; so every non-whitespace byte keeps its value
and place, and so does every byte at or behind the terminating NUL of the
line. When the loop is left through `break`, every whitespace byte of the line
has become NUL and the C strings at `argv[0] .. argv[argc-1]` are the tokens
of the line. -/
theorem runcmd_buffer_frame (fuel : Nat) (argv : Nat → Option Nat) (buf : List Char)
    (hfuel : buf.length < fuel) :
    ∃ res, parseArgs fuel argv buf = some res
      ∧ (res.state.done ++ res.state.buf).length = buf.length
      ∧ (∀ i, (res.state.done ++ res.state.buf).getD i '\x00' = buf.getD i '\x00'
          ∨ (isWhite (buf.getD i '\x00') = true
              ∧ (res.state.done ++ res.state.buf).getD i '\x00' = '\x00'))
      ∧ (∀ i, (cstr buf).length ≤ i →
          (res.state.done ++ res.state.buf).getD i '\x00' = buf.getD i '\x00')
      ∧ (∀ st, res = .parsed st →
          (∀ i, i < (cstr buf).length → isWhite (buf.getD i '\x00') = true →
            (st.done ++ st.buf).getD i '\x00' = '\x00')
          ∧ argList st = (tokens buf).map String.mk) := by
  obtain ⟨res, hres, -, ⟨j, hj⟩, -, -⟩ := parseArgs_total fuel argv buf hfuel
  refine ⟨res, hres, ?_, ?_, ?_, ?_⟩
  · rw [hj, length_blankUpTo]
  · intro i
    rw [hj]
    rcases getD_blankUpTo j buf i with h | ⟨h1, -, h3⟩
    · left; exact h
    · right; exact ⟨h1, h3⟩
  · intro i hi
    rw [hj]
    rcases getD_blankUpTo j buf i with h | ⟨-, h2, -⟩
    · exact h
    · omega
  · intro st hst
    rw [hst] at hres
    have hcount := parseArgs_parsed_count fuel argv buf hfuel st hres
    obtain ⟨st2, hst2, -, hmem, -, hargs⟩ := parseArgs_parsed fuel argv buf hfuel hcount
    rw [hres] at hst2
    simp only [Option.some.injEq, ParseResult.parsed.injEq] at hst2
    subst hst2
    refine ⟨fun i hi hw => ?_, hargs⟩
    rw [hmem]
    exact getD_blankOut buf i hi hw

theorem runcmd_buffer_frame_witness :
    ((parseArgs 20 (fun _ => none) " ab\tc \x00 d".data).map fun res =>
          (res.state.done ++ res.state.buf, res.state.argc))
        = some ("\x00ab\x00c\x00\x00 d".data, 2)
      ∧ ∃ res, parseArgs 20 (fun _ => none) " ab\tc \x00 d".data = some res
        ∧ (res.state.done ++ res.state.buf).length = " ab\tc \x00 d".data.length
        ∧ (∀ i, (res.state.done ++ res.state.buf).getD i '\x00' = " ab\tc \x00 d".data.getD i '\x00'
            ∨ (isWhite (" ab\tc \x00 d".data.getD i '\x00') = true
                ∧ (res.state.done ++ res.state.buf).getD i '\x00' = '\x00'))
        ∧ (∀ i, (cstr " ab\tc \x00 d".data).length ≤ i →
            (res.state.done ++ res.state.buf).getD i '\x00' = " ab\tc \x00 d".data.getD i '\x00')
        ∧ (∀ st, res = .parsed st →
            (∀ i, i < (cstr " ab\tc \x00 d".data).length →
              isWhite (" ab\tc \x00 d".data.getD i '\x00') = true →
              (st.done ++ st.buf).getD i '\x00' = '\x00')
            ∧ argList st = (tokens " ab\tc \x00 d".data).map String.mk) :=
  ⟨by decide, runcmd_buffer_frame 20 (fun _ => none) " ab\tc \x00 d".data (by decide)⟩

/-! ### Further results on the monitor loop and the default commands -/

/-- C11, refuted: a handler that returns `-2`, which is not the sentinel `-1`,
ends the loop of `monitor` as well; `monitor` returns right after the dispatch
of `fail` and reads none of the lines that follow, whereas the positive return
value `7` of the line before lets the loop go on. -/
theorem monitor_exits_on_minus_two :
    runcmd signCommands 20 (fun _ => none) "seven".data 0
        = some ([.call 0 1 ["seven"] 0, .out ""], 7)
      ∧ runcmd signCommands 20 (fun _ => none) "fail".data 0
        = some ([.call 1 1 ["fail"] 0, .out ""], -2)
      ∧ signConsole 2 = some "seven".data
      ∧ monitor signCommands 20 (fun _ => none) signConsole 0 10
        = some [.out "Welcome to the JOS kernel monitor!\n",
            .out "Type 'help' for a list of commands.\n",
            .readline (some "seven".data), .call 0 1 ["seven"] 0, .out "",
            .readline (some "fail".data), .call 1 1 ["fail"] 0, .out ""] := by
  decide

/-- C11 as amended: whether the loop of `monitor` ends is decided by the sign
of the dispatch's return value. When the loop reaches call number `n` of
`readline` and the dispatch of that line returns `r`, then for every negative
`r`, the sentinel `-1` or not, `monitor` returns right after this dispatch, and
for every `r` that is zero or positive it does not return within `n + 1`
iterations and any run that returns has made at least `n + 2` calls of
`readline`, that is, it went on to read the next line. -/
theorem monitor_exit_by_sign (cmds : List Command) (fuel : Nat) (argv : Nat → Option Nat)
    (console : Nat → Option (List Char)) (tf : Nat) (buf : List Char) (es : List Event)
    (r : Int) (n : Nat)
    (hreach : ∀ i, i < n → continues cmds fuel argv console tf i = true)
    (hbuf : console n = some buf) (hrun : runcmd cmds fuel argv buf tf = some (es, r)) :
    (r < 0 → ∀ steps, n < steps →
        monitor cmds fuel argv console tf steps
          = some ([.out "Welcome to the JOS kernel monitor!\n",
                .out "Type 'help' for a list of commands.\n"]
              ++ (List.range n).flatMap (lineEvents cmds fuel argv console tf)
              ++ .readline (some buf) :: es))
      ∧ (0 ≤ r →
          monitor cmds fuel argv console tf (n + 1) = none
            ∧ ∀ steps out, monitor cmds fuel argv console tf steps = some out →
                n + 2 ≤ readlineCount out) := by
  constructor
  · intro hr steps hsteps
    rw [monitor, monitorLoop_exit cmds fuel argv console tf buf es r n 0 steps _
      (by simpa using hreach) (by simpa using hbuf) hrun hr hsteps, List.range_eq_range']
    rfl
  · intro hr
    have key : ∀ steps out, monitor cmds fuel argv console tf steps = some out →
        n + 2 ≤ readlineCount out ∧ n + 1 < steps := by
      intro steps out h
      rw [monitor] at h
      obtain ⟨m, b, es2, r2, hm, hcont, hb, hrun2, hr2, hout⟩ :=
        monitorLoop_some _ _ _ _ _ _ _ _ _ h
      simp only [Nat.zero_add] at hcont hb
      have hmn : n < m := by
        rcases Nat.lt_trichotomy m n with hlt | heq | hgt
        · have hc := hreach m hlt
          rw [continues_of_nonneg cmds fuel argv console tf m b es2 r2 hb hrun2] at hc
          simp only [decide_eq_true_eq] at hc
          omega
        · subst heq
          rw [hbuf] at hb
          simp only [Option.some.injEq] at hb
          subst hb
          rw [hrun] at hrun2
          simp only [Option.some.injEq, Prod.mk.injEq] at hrun2
          omega
        · exact hgt
      refine ⟨?_, by omega⟩
      rw [hout, readlineCount_append, readlineCount_append, readlineCount_flatMap,
        List.length_range', readlineCount_cons_readline,
        runcmd_no_readline cmds fuel argv b tf es2 r2 hrun2]
      omega
    refine ⟨?_, fun steps out h => (key steps out h).1⟩
    cases h : monitor cmds fuel argv console tf (n + 1) with
    | none => rfl
    | some out =>
      have := (key _ out h).2
      omega

theorem monitor_exit_by_sign_witness :
    (signConsole 1 = some "fail".data
        ∧ runcmd signCommands 20 (fun _ => none) "fail".data 0
          = some ([.call 1 1 ["fail"] 0, .out ""], -2)
        ∧ monitor signCommands 20 (fun _ => none) signConsole 0 10
          = some [.out "Welcome to the JOS kernel monitor!\n",
              .out "Type 'help' for a list of commands.\n",
              .readline (some "seven".data), .call 0 1 ["seven"] 0, .out "",
              .readline (some "fail".data), .call 1 1 ["fail"] 0, .out ""])
      ∧ (signConsole 0 = some "seven".data
        ∧ runcmd signCommands 20 (fun _ => none) "seven".data 0
          = some ([.call 0 1 ["seven"] 0, .out ""], 7)
        ∧ monitor signCommands 20 (fun _ => none) signConsole 0 (0 + 1) = none) :=
  ⟨⟨by decide, by decide,
      ((monitor_exit_by_sign signCommands 20 (fun _ => none) signConsole 0 "fail".data
        [.call 1 1 ["fail"] 0, .out ""] (-2) 1 (by decide) (by decide) (by decide)).1
        (by decide) 10 (by decide)).trans (by decide)⟩,
    ⟨by decide, by decide,
      ((monitor_exit_by_sign signCommands 20 (fun _ => none) signConsole 0 "seven".data
        [.call 0 1 ["seven"] 0, .out ""] 7 0 (by decide) (by decide) (by decide)).2
        (by decide)).1⟩⟩

/-- C12: with the default command table no dispatch yields a negative value
and the loop of `monitor` never exits. On every machine and every line a
dispatch that returns returns `0`; it does return, with `0`, on every line
whose first token is not `backtrace`, and on every line when the
frame-pointer chain reaches zero; so `monitor` returns for no console and no
number of iterations, and on a console of such lines every iteration goes on
to the next call of `readline`. -/
theorem default_commands_never_exit (M : Machine) (K : KernelImage) (fuel : Nat)
    (argv : Nat → Option Nat) (tf : Nat) :
    (∀ (buf : List Char) (es : List Event) (r : Int),
        runcmd (commands M K) fuel argv buf tf = some (es, r) → r = 0)
      ∧ (∀ buf : List Char, buf.length < fuel →
          ((tokens buf).head? ≠ some "backtrace".data ∨ ∃ k, ChainEnds M k ∧ k < fuel) →
          ∃ es, runcmd (commands M K) fuel argv buf tf = some (es, 0))
      ∧ (∀ (console : Nat → Option (List Char)) (steps : Nat),
          monitor (commands M K) fuel argv console tf steps = none)
      ∧ ∀ console : Nat → Option (List Char),
          (∀ n buf, console n = some buf → buf.length < fuel
            ∧ ((tokens buf).head? ≠ some "backtrace".data ∨ ∃ k, ChainEnds M k ∧ k < fuel)) →
          ∀ n, continues (commands M K) fuel argv console tf n = true := by
  refine ⟨fun buf es r h => runcmd_commands_zero M K fuel argv buf tf es r h,
    fun buf hb hbt => runcmd_commands_returns M K fuel argv buf tf hb hbt,
    fun console steps => ?_, fun console hlines n => ?_⟩
  · cases h : monitor (commands M K) fuel argv console tf steps with
    | none => rfl
    | some out =>
      rw [monitor] at h
      obtain ⟨m, buf, es, r, -, -, -, hrun, hr, -⟩ := monitorLoop_some _ _ _ _ _ _ _ _ _ h
      have := runcmd_commands_zero M K fuel argv buf tf es r hrun
      omega
  · rw [continues]
    cases hn : console n with
    | none => rfl
    | some buf =>
      obtain ⟨hlen, hbt⟩ := hlines n buf hn
      obtain ⟨es, hes⟩ := runcmd_commands_returns M K fuel argv buf tf hlen hbt
      simp only [hes]
      decide

theorem default_commands_never_exit_witness :
    (runcmd (commands selfLoopMachine exampleKernel) 20 (fun _ => none) "trace me".data 0
          = some ([.out "Unknown command 'trace'\n"], 0) ∧ (0 : Int) = 0)
      ∧ ((∀ i, frameAt selfLoopMachine i ≠ 0)
        ∧ (tokens "help me".data).head? ≠ some "backtrace".data
        ∧ ∃ es, runcmd (commands selfLoopMachine exampleKernel) 20 (fun _ => none)
            "help me".data 0 = some (es, 0))
      ∧ (ChainEnds exampleMachine 2
        ∧ (tokens "backtrace now".data).head? = some "backtrace".data
        ∧ ∃ es, runcmd (commands exampleMachine exampleKernel) 20 (fun _ => none)
            "backtrace now".data 0 = some (es, 0))
      ∧ (∀ steps, monitor (commands selfLoopMachine exampleKernel) 20 (fun _ => none)
          defaultConsole 0 steps = none)
      ∧ ∀ n, continues (commands exampleMachine exampleKernel) 20 (fun _ => none)
          defaultConsole 0 n = true :=
  ⟨⟨by decide,
      (default_commands_never_exit selfLoopMachine exampleKernel 20 (fun _ => none) 0).1
        "trace me".data [.out "Unknown command 'trace'\n"] 0 (by decide)⟩,
    ⟨frameAt_selfLoopMachine_ne, by decide,
      (default_commands_never_exit selfLoopMachine exampleKernel 20 (fun _ => none) 0).2.1
        "help me".data (by decide) (Or.inl (by decide))⟩,
    ⟨by decide, by decide,
      (default_commands_never_exit exampleMachine exampleKernel 20 (fun _ => none) 0).2.1
        "backtrace now".data (by decide) (Or.inr ⟨2, by decide, by decide⟩)⟩,
    (default_commands_never_exit selfLoopMachine exampleKernel 20 (fun _ => none) 0).2.2.1
      defaultConsole,
    (default_commands_never_exit exampleMachine exampleKernel 20 (fun _ => none) 0).2.2.2
      defaultConsole
      (fun n buf h => ⟨defaultConsole_length n buf h, Or.inr ⟨2, by decide, by decide⟩⟩)⟩

/-- C13: the help handler prints one line per entry of the command table, in
table order, made of the name of the entry, ` - ` and its description; the
names are `help`, `kerninfo`, `backtrace` and `mydisplay`, pairwise distinct,
so each is listed once; the handler returns `0` whatever its arguments are. -/
theorem mon_help_lists_commands (M : Machine) (K : KernelImage) (fuel argc tf : Nat)
    (argv : List String) :
    mon_help fuel argc argv tf
        = some (String.join ((commands M K).map fun c => c.name ++ " - " ++ c.desc ++ "\n"), 0)
      ∧ ((commands M K).map fun c => c.name) = ["help", "kerninfo", "backtrace", "mydisplay"]
      ∧ ((commands M K).map fun c => c.name).Nodup
      ∧ ((commands M K).map fun c => (c.name, c.desc)) = commandNames
      ∧ ((commands M K).map fun c => c.func)[0]? = some mon_help := by
  refine ⟨?_, rfl, ?_, rfl, rfl⟩
  · have h : ((commands M K).map fun c => c.name ++ " - " ++ c.desc ++ "\n")
        = commandNames.map fun c => c.1 ++ " - " ++ c.2 ++ "\n" := rfl
    have h2 : mon_help fuel argc argv tf = mon_help 0 0 [] 0 := rfl
    rw [h, h2]
    decide
  · have h : ((commands M K).map fun c => c.name)
        = ["help", "kerninfo", "backtrace", "mydisplay"] := rfl
    rw [h]
    decide

/-- C14: a NULL result of `readline` makes the loop of `monitor` do nothing
but go on to the next call of `readline`: no line is dispatched and no handler
is invoked. So when `monitor` returns, it does so right after the dispatch of
a line whose return value is negative, every iteration before having gone
on; on a console that only delivers NULL it never returns. -/
theorem monitor_null_line (cmds : List Command) (fuel : Nat) (argv : Nat → Option Nat)
    (console : Nat → Option (List Char)) (tf : Nat) :
    (∀ steps n evs, console n = none →
        monitorLoop cmds fuel argv console tf (steps + 1) n evs
          = monitorLoop cmds fuel argv console tf steps (n + 1) (evs ++ [.readline none]))
      ∧ (∀ steps out, monitor cmds fuel argv console tf steps = some out →
          ∃ n buf es r, n < steps
            ∧ (∀ i, i < n → continues cmds fuel argv console tf i = true)
            ∧ console n = some buf ∧ runcmd cmds fuel argv buf tf = some (es, r) ∧ r < 0
            ∧ out = [.out "Welcome to the JOS kernel monitor!\n",
                  .out "Type 'help' for a list of commands.\n"]
                ++ (List.range n).flatMap (lineEvents cmds fuel argv console tf)
                ++ .readline (some buf) :: es)
      ∧ ((∀ n, console n = none) → ∀ steps, monitor cmds fuel argv console tf steps = none) := by
  refine ⟨fun steps n evs hn => ?_, fun steps out h => ?_, fun hnull steps => ?_⟩
  · rw [monitorLoop]
    simp only [hn]
  · rw [monitor] at h
    obtain ⟨n, buf, es, r, hn, hcont, hbuf, hrun, hr, hout⟩ :=
      monitorLoop_some _ _ _ _ _ _ _ _ _ h
    simp only [Nat.zero_add] at hcont hbuf
    refine ⟨n, buf, es, r, hn, hcont, hbuf, hrun, hr, ?_⟩
    rw [hout, List.range_eq_range']
    rfl
  · exact monitorLoop_none _ _ _ _ _ (fun n => by simp [continues, hnull n]) _ _ _

theorem monitor_null_line_witness :
    (nullConsole 0 = none
        ∧ monitorLoop exampleCommands 20 (fun _ => none) nullConsole 0 (4 + 1) 0 []
          = monitorLoop exampleCommands 20 (fun _ => none) nullConsole 0 4 (0 + 1)
              ([] ++ [.readline none]))
      ∧ (monitor exampleCommands 20 (fun _ => none) nullConsole 0 5
          = some [.out "Welcome to the JOS kernel monitor!\n",
              .out "Type 'help' for a list of commands.\n",
              .readline none,
              .readline (some "quit".data), .call 2 1 ["quit"] 0, .out "bye\n"]
        ∧ ∃ n buf es r, n < 5
            ∧ (∀ i, i < n → continues exampleCommands 20 (fun _ => none) nullConsole 0 i = true)
            ∧ nullConsole n = some buf
            ∧ runcmd exampleCommands 20 (fun _ => none) buf 0 = some (es, r) ∧ r < 0
            ∧ [.out "Welcome to the JOS kernel monitor!\n",
                .out "Type 'help' for a list of commands.\n",
                .readline none,
                .readline (some "quit".data), .call 2 1 ["quit"] 0, .out "bye\n"]
              = [.out "Welcome to the JOS kernel monitor!\n",
                  .out "Type 'help' for a list of commands.\n"]
                ++ (List.range n).flatMap
                    (lineEvents exampleCommands 20 (fun _ => none) nullConsole 0)
                ++ .readline (some buf) :: es) :=
  ⟨⟨by decide,
      (monitor_null_line exampleCommands 20 (fun _ => none) nullConsole 0).1 4 0 []
        (by decide)⟩,
    ⟨by decide,
      (monitor_null_line exampleCommands 20 (fun _ => none) nullConsole 0).2.1 5 _
        (by decide)⟩⟩

end JOS
